import Mathlib

/-!
Verification development for the Grip personal check-in application
(`grip/web.py`, `grip/questions.py`, `grip/insights.py`, `grip/database.py`).

Python `datetime.date` values are modelled by their proleptic-Gregorian
ordinal (`date.toordinal()`, an integer); `date - timedelta(days=1)` is
ordinal decrement and date equality is ordinal equality, so the model is
exact.  ISO date strings stored as SQLite TEXT are modelled as `String`
and compared lexicographically on their characters, which agrees with
SQLite's byte-wise TEXT comparison on ASCII ISO dates.  SQLite INTEGER
columns are modelled as `Int`, TEXT as `String`, and nullable columns as
`Option`.
-/

namespace Grip

/-- Leap-year test, as in Python `calendar.isleap` / `datetime._is_leap`. -/
def isLeap (y : Nat) : Bool := y % 4 = 0 && (y % 100 ≠ 0 || y % 400 = 0)

/-- Cumulative day counts before each month in a non-leap year
(`datetime._DAYS_BEFORE_MONTH`). -/
def daysBeforeMonthTable : List Nat :=
  [0, 31, 59, 90, 120, 151, 181, 212, 243, 273, 304, 334]

/-- Days in the year before the first of month `m` (`datetime._days_before_month`). -/
def daysBeforeMonth (y m : Nat) : Nat :=
  daysBeforeMonthTable.getD (m - 1) 0 + (if 2 < m && isLeap y then 1 else 0)

/-- Days before January 1st of year `y` (`datetime._days_before_year`). -/
def daysBeforeYear (y : Nat) : Nat :=
  (y - 1) * 365 + (y - 1) / 4 - (y - 1) / 100 + (y - 1) / 400

/-- Python `date(y, m, d).toordinal()` (`datetime._ymd2ord`). -/
def toOrdinal (y m d : Nat) : Int :=
  ((daysBeforeYear y + daysBeforeMonth y m + d : Nat) : Int)

/-!
Streak calculation, `web.py` lines 80–95 (`_calculate_streak`).
The list of check-in dates (ordinals) is walked once with a cursor
`current` that starts at today's date.
-/

/-- Loop body of `_calculate_streak` (`web.py` 85–94): `current` is the
cursor, `streak` the accumulator, and the list the remaining dates. -/
def calculateStreakGo (current : Int) (streak : Nat) : List Int → Nat
  | [] => streak
  | d :: ds =>
    if d = current then calculateStreakGo (current - 1) (streak + 1) ds
    else if d = current - 1 then calculateStreakGo (d - 1) (streak + 1) ds
    else streak

/-- Function `_calculate_streak(dates)` (`web.py` 80–95), with `date.today()`
passed explicitly as the ordinal `today`. -/
def calculateStreak (today : Int) (dates : List Int) : Nat :=
  if dates.isEmpty then 0 else calculateStreakGo today 0 dates

/-- Accumulator-free form of the streak walk; equal to
`calculateStreakGo` with accumulator 0 (proved below). -/
def streakRun (c : Int) : List Int → Nat
  | [] => 0
  | d :: ds =>
    if d = c then streakRun (d - 1) ds + 1
    else if d = c - 1 then streakRun (d - 1) ds + 1
    else 0

/-- Formalisation of the claim wording for C1 (spec §4.2 contract):
the number of consecutive days present in `dates` counting down from
`s` (the run length of `s, s-1, s-2, …` inside the list).  The fuel
argument bounds the recursion; `dates.length` suffices for duplicate-free
lists. -/
def consecutiveRunFrom (dates : List Int) : Int → Nat → Nat
  | _, 0 => 0
  | s, fuel + 1 => if s ∈ dates then consecutiveRunFrom dates (s - 1) fuel + 1 else 0

/-- Formalisation of the claim wording for C1: the length of the unbroken
run of consecutive days ending at today, or ending at yesterday when
today is absent from the list. -/
def claimedStreak (today : Int) (dates : List Int) : Nat :=
  if today ∈ dates then consecutiveRunFrom dates today dates.length
  else consecutiveRunFrom dates (today - 1) dates.length

/-- Step relation of the walk actually implemented: each counted date is
1 or 2 days before the previous counted date. -/
def gapOk (a b : Int) : Prop := a - b = 1 ∨ a - b = 2

instance gapOkDec : DecidableRel gapOk := fun a b =>
  inferInstanceAs (Decidable (a - b = 1 ∨ a - b = 2))

/-- A prefix of the date list that the implemented walk accepts in full:
its first date is today or yesterday and each later date is 1 or 2 days
before its predecessor. -/
def runOk (c : Int) (l : List Int) : Prop :=
  match l with
  | [] => True
  | d :: ds => (c - d = 0 ∨ c - d = 1) ∧ List.Chain' gapOk (d :: ds)

instance runOkDec (c : Int) (l : List Int) : Decidable (runOk c l) :=
  match l with
  | [] => isTrue trivial
  | _ :: _ => inferInstanceAs (Decidable (And _ _))

/-!
Daily question selection, `questions.py` lines 7–29 (`get_daily_questions`).

The pseudo-random generator `random.Random(seed)` is modelled abstractly:
`g seed i k` is the value of the `i`-th `getrandbits(k)` call of the
generator seeded with `seed`, reduced mod `2 ^ k` so that every concrete
generator (in particular CPython's Mersenne Twister) is an instance of
the model.  The generator state is the call counter `i`.  The rejection
loops of CPython's `_randbelow_with_getrandbits` and of `sample` are
given explicit fuel and return `none` when it runs out (CPython would
keep drawing); all properties proved below hold whenever the call
terminates.
-/

/-- Family of seeded bit-streams: seed, call index, bit count. -/
abbrev Randbits := Nat → Nat → Nat → Nat

/-- Rejection loop of CPython `Random._randbelow_with_getrandbits`:
draw `k`-bit values until one is `< n`. -/
def randbelowLoop (g : Randbits) (seed n k : Nat) : Nat → Nat → Option (Nat × Nat)
  | _, 0 => none
  | i, fuel + 1 =>
    let r := g seed i k % 2 ^ k
    if r < n then some (r, i + 1) else randbelowLoop g seed n k (i + 1) fuel

/-- CPython `Random._randbelow_with_getrandbits(n)`: for `n = 0` return 0
without drawing; otherwise rejection-sample a `n.bit_length()`-bit value
(`Nat.size n`) until it is below `n`. -/
def randbelow (g : Randbits) (seed n i fuel : Nat) : Option (Nat × Nat) :=
  if n = 0 then some (0, i) else randbelowLoop g seed n (Nat.size n) i fuel

/-- CPython `Random.randint(a, b)` = `randrange(a, b + 1)` =
`a + _randbelow(b + 1 - a)`. -/
def randint (g : Randbits) (seed a b i fuel : Nat) : Option (Nat × Nat) :=
  (randbelow g seed (b + 1 - a) i fuel).map (fun p => (a + p.1, p.2))

/-- Table size bound of CPython `Random.sample`: `setsize = 21`, plus
`4 ** ceil(log(k * 3, 4))` when `k > 5` (the float `log` of CPython is
modelled by the exact `Nat.clog`; the calls in this repository always
have `k ≤ 5`). -/
def sampleSetsize (k : Nat) : Nat :=
  if k ≤ 5 then 21 else 21 + 4 ^ Nat.clog 4 (3 * k)

/-- Pool branch of CPython `Random.sample` (`n <= setsize`): partial
Fisher–Yates on a copy of the population.  At step `i`, draw
`j = randbelow(n - i)`, output `pool[j]`, and move `pool[n - i - 1]`
into the vacancy. -/
def samplePoolGo {α : Type} (g : Randbits) (seed fuel n : Nat) :
    Nat → Nat → List α → Nat → List α → Option (List α × Nat)
  | _, 0, _, st, acc => some (acc.reverse, st)
  | i, rem + 1, pool, st, acc =>
    match randbelow g seed (n - i) st fuel with
    | none => none
    | some (j, st1) =>
      match pool[j]?, pool[n - i - 1]? with
      | some x, some y =>
        samplePoolGo g seed fuel n (i + 1) rem (pool.set j y) st1 (x :: acc)
      | _, _ => none

/-- Inner rejection loop of the selection-set branch of `Random.sample`:
redraw `j = randbelow(n)` while `j` is already selected. -/
def sampleSelPick (g : Randbits) (seed fuel n : Nat) (selected : List Nat) :
    Nat → Nat → Option (Nat × Nat)
  | _, 0 => none
  | st, rfuel + 1 =>
    match randbelow g seed n st fuel with
    | none => none
    | some (j, st1) =>
      if j ∈ selected then sampleSelPick g seed fuel n selected st1 rfuel
      else some (j, st1)

/-- Selection-set branch of CPython `Random.sample` (`n > setsize`):
draw distinct indices into the population, tracking the set of already
selected indices. -/
def sampleSelGo {α : Type} (g : Randbits) (seed fuel n : Nat) (population : List α) :
    Nat → List Nat → Nat → List α → Option (List α × Nat)
  | 0, _, st, acc => some (acc.reverse, st)
  | rem + 1, selected, st, acc =>
    match sampleSelPick g seed fuel n selected st fuel with
    | none => none
    | some (j, st1) =>
      match population[j]? with
      | some x => sampleSelGo g seed fuel n population rem (j :: selected) st1 (x :: acc)
      | none => none

/-- CPython `Random.sample(population, k)`: raises (`none` here is never
produced for this reason when fuel suffices, but mirrors the
`ValueError`) unless `0 <= k <= n`; then uses the pool branch when
`n <= setsize` and the selection-set branch otherwise. -/
def sample {α : Type} (g : Randbits) (seed fuel : Nat) (population : List α)
    (k st : Nat) : Option (List α × Nat) :=
  if k ≤ population.length then
    if population.length ≤ sampleSetsize k then
      samplePoolGo g seed fuel population.length 0 k population st []
    else sampleSelGo g seed fuel population.length population k [] st []
  else none

/-- Row of the `questions` table (`database.py` schema); the daily query
selects `id, text, type, is_core` but the extra columns are carried along
harmlessly.  `type` is named `qtype` (`type` is reserved in Lean). -/
structure Question where
  id : Nat
  text : String
  qtype : String
  category : String
  isCore : Int
  active : Int
deriving DecidableEq

/-- Rows of the query `SELECT … FROM questions WHERE category = 'daily'
AND active = 1` (`questions.py` 16–18). -/
def dailyRows (table : List Question) : List Question :=
  table.filter (fun q => q.category == "daily" && q.active == 1)

/-- Python `core = [r for r in rows if r["is_core"]]` (Python truthiness of the
INTEGER column: nonzero). -/
def coreQuestions (table : List Question) : List Question :=
  (dailyRows table).filter (fun q => !(q.isCore == 0))

/-- Python `pool = [r for r in rows if not r["is_core"]]`. -/
def poolQuestions (table : List Question) : List Question :=
  (dailyRows table).filter (fun q => q.isCore == 0)

/-- Function `get_daily_questions` with the seed made explicit: draw
`n_extra = min(rng.randint(3, 5), len(pool))` and return
`core + rng.sample(pool, n_extra)` (`questions.py` 21–29). -/
def getDailyQuestionsWithSeed (g : Randbits) (fuel seed : Nat)
    (table : List Question) : Option (List Question) :=
  match randint g seed 3 5 0 fuel with
  | none => none
  | some (c, st) =>
    match sample g seed fuel (poolQuestions table)
        (min c (poolQuestions table).length) st with
    | none => none
    | some (extra, _) => some (coreQuestions table ++ extra)

/-- A calendar date as year/month/day, the argument of
`get_daily_questions`. -/
structure Ymd where
  year : Nat
  month : Nat
  day : Nat
deriving DecidableEq

/-- Python `seed = int(for_date.strftime("%Y%m%d"))` (`questions.py` 13) for
four-digit years. -/
def dateSeed (d : Ymd) : Nat := 10000 * d.year + 100 * d.month + d.day

/-- Function `get_daily_questions(db, for_date)` (`questions.py` 7–29): the seed
is derived from the date and everything else from the questions table. -/
def getDailyQuestions (g : Randbits) (fuel : Nat) (forDate : Ymd)
    (table : List Question) : Option (List Question) :=
  getDailyQuestionsWithSeed g fuel (dateSeed forDate) table

/-- Constant-zero bit stream, a concrete instance of the generator
model used for the witnesses. -/
def sampleGen0 : Randbits := fun _ _ _ => 0

/-- A concrete questions table: two core daily, four pool daily, one
weekly question. -/
def questionsTable : List Question :=
  [⟨1, "k1", "score", "daily", 1, 1⟩,
   ⟨2, "k2", "open", "daily", 1, 1⟩,
   ⟨3, "p1", "score", "daily", 0, 1⟩,
   ⟨4, "p2", "open", "daily", 0, 1⟩,
   ⟨5, "p3", "open", "daily", 0, 1⟩,
   ⟨6, "p4", "open", "daily", 0, 1⟩,
   ⟨7, "w1", "open", "weekly", 1, 1⟩]

/-!
Tracker entries, `web.py` 196–205 and schema `tracker_entries`
(`database.py` 95–102, `UNIQUE(tracker_id, date)`).  REAL values are
modelled as integers: the claims only exercise integral values, for
which the Python/SQLite float round-trip is exact.
-/

/-- Row of `tracker_entries` (id and created_at omitted; row identity is
by content). -/
structure TrackerEntry where
  trackerId : Nat
  date : String
  value : Int
deriving DecidableEq

/-- SQL upsert `INSERT INTO tracker_entries … ON CONFLICT(tracker_id,
date) DO UPDATE SET value = ?` (`web.py` 200–205): update the
conflicting row when one exists, insert otherwise.  Under the UNIQUE
constraint at most one row can conflict; the map touches exactly that
row. -/
def upsertTrackerEntry (rows : List TrackerEntry) (t : Nat) (d : String)
    (v : Int) : List TrackerEntry :=
  if rows.any (fun e => e.trackerId == t && e.date == d) then
    rows.map (fun e =>
      if e.trackerId == t && e.date == d then { e with value := v } else e)
  else rows ++ [⟨t, d, v⟩]

/-- Tracker-entry phase of `save_checkin` (`web.py` 196–205): one upsert
per `tracker_{id}` form field carrying a nonempty value, all dated
today. -/
def saveCheckinTrackerEntries (items : List (Nat × Int)) (today : String)
    (rows : List TrackerEntry) : List TrackerEntry :=
  items.foldl (fun acc p => upsertTrackerEntry acc p.1 today p.2) rows

/-- Key of a tracker entry: the UNIQUE constraint `(tracker_id, date)`. -/
def entryKey (e : TrackerEntry) : Nat × String := (e.trackerId, e.date)

/-- The store invariant: at most one `tracker_entries` row per
`(tracker, date)` pair. -/
def atMostOnePerKey (rows : List TrackerEntry) : Prop :=
  (rows.map entryKey).Nodup

instance atMostOnePerKeyDec (rows : List TrackerEntry) :
    Decidable (atMostOnePerKey rows) :=
  inferInstanceAs (Decidable ((rows.map entryKey).Nodup))

/-!
Goal tasks, daily tasks and trackers (`web.py` 492–654, schema in
`database.py`).  Handler results are `Except GripError (store, response)`:
the error channel models Python exception propagation out of the handler
(the spec's §7 taxonomy); the handlers below never raise.
-/

/-- Row of `goal_tasks` (`database.py` 67–74). -/
structure GoalTask where
  id : Nat
  goalId : Nat
  title : String
  completed : Int
  sortOrder : Int
deriving DecidableEq

/-- Row of `daily_tasks` (`database.py` 76–83). -/
structure DailyTask where
  id : Nat
  title : String
  date : String
  completed : Int
  checkInId : Option Nat
deriving DecidableEq

/-- Row of `trackers` (`database.py` 85–93); `type` is named `ttype`. -/
structure Tracker where
  id : Nat
  name : String
  unit : String
  ttype : String
  active : Int
  sortOrder : Int
deriving DecidableEq

/-- Responses the handlers return. -/
inductive HandlerResponse
  | redirect (location : String)
  | jsonOk
deriving DecidableEq

/-- Error taxonomy claimed by spec §7.  No handler in `web.py` raises
any of these on a missing field. -/
inductive GripError
  | validationError
  | notFoundError
  | serviceError
deriving DecidableEq

/-- Python `str.strip()`: drop leading and trailing whitespace. -/
def pyStrip (s : String) : String :=
  String.mk (((s.data.dropWhile Char.isWhitespace).reverse.dropWhile
    Char.isWhitespace).reverse)

/-- SQLite AUTOINCREMENT, modelled as one more than the largest id. -/
def nextRowId (ids : List Nat) : Nat := ids.foldr max 0 + 1

/-- SQL `SELECT COALESCE(MAX(sort_order), -1) + 1` over a list of rows'
sort orders. -/
def nextSortOrder (orders : List Int) : Int := orders.foldr max (-1) + 1

/-- Handler `add_goal_task` (`web.py` 492–513): strip the title; when empty,
redirect without touching the store; otherwise insert a task with the
next per-goal sort order (`completed` defaults to 0). -/
def addGoalTask (tasks : List GoalTask) (goalId : Nat) (title : String) :
    Except GripError (List GoalTask × HandlerResponse) :=
  if pyStrip title = "" then .ok (tasks, .redirect "/goals")
  else .ok (tasks ++ [⟨nextRowId (tasks.map (fun x => x.id)), goalId, pyStrip title, 0,
    nextSortOrder ((tasks.filter (fun x => x.goalId == goalId)).map
      (fun x => x.sortOrder))⟩], .redirect "/goals")

/-- Handler `create_tracker` (`web.py` 606–629): strip name and unit; when the
name is empty, redirect without touching the store; otherwise insert
with the next global sort order (`active` defaults to 1). -/
def createTracker (trackers : List Tracker) (name unit ttype : String) :
    Except GripError (List Tracker × HandlerResponse) :=
  if pyStrip name = "" then .ok (trackers, .redirect "/trackers")
  else .ok (trackers ++ [⟨nextRowId (trackers.map (fun x => x.id)), pyStrip name,
    pyStrip unit, ttype, 1, nextSortOrder (trackers.map (fun x => x.sortOrder))⟩],
    .redirect "/trackers")

/-- Handler `delete_goal_task` (`web.py` 530–538):
`DELETE FROM goal_tasks WHERE id = ?`. -/
def deleteGoalTask (tasks : List GoalTask) (taskId : Nat) : List GoalTask :=
  tasks.filter (fun t => !(t.id == taskId))

/-- SQL `CASE WHEN completed = 0 THEN 1 ELSE 0 END` (also used for
`active`). -/
def toggleFlag (c : Int) : Int := if c = 0 then 1 else 0

/-- Handler `toggle_goal_task` (`web.py` 516–527). -/
def toggleGoalTask (tasks : List GoalTask) (taskId : Nat) : List GoalTask :=
  tasks.map (fun t => if t.id == taskId then
    { t with completed := toggleFlag t.completed } else t)

/-- Handler `toggle_daily_task` (`web.py` 563–574). -/
def toggleDailyTask (tasks : List DailyTask) (taskId : Nat) : List DailyTask :=
  tasks.map (fun t => if t.id == taskId then
    { t with completed := toggleFlag t.completed } else t)

/-- Handler `toggle_tracker` (`web.py` 632–643): flips `active`. -/
def toggleTracker (trackers : List Tracker) (trackerId : Nat) : List Tracker :=
  trackers.map (fun t => if t.id == trackerId then
    { t with active := toggleFlag t.active } else t)

/-!
Week reviews, `web.py` 282–318 (`save_weekreview`) and schema
`week_reviews` (`database.py` 33–44, `UNIQUE(year, week_number)`).
Numeric form values land in INTEGER columns via SQLite affinity and are
modelled as `Option Int`; unchecked checkboxes and absent fields are
`none`.
-/

/-- Row of `week_reviews` (`created_at` omitted). -/
structure WeekReview where
  id : Nat
  year : Int
  week : Int
  score : Option Int
  wentWell : String
  improve : String
  onTrack : Option String
  priorities : String
deriving DecidableEq

/-- The five fields read from the form (`web.py` 290–294). -/
structure WeekReviewForm where
  score : Option Int
  wentWell : String
  improve : String
  onTrack : Option String
  priorities : String
deriving DecidableEq

/-- The UPDATE of `save_weekreview` (`web.py` 304–309): overwrite the
five form-backed columns, keep id, year and week number. -/
def applyForm (r : WeekReview) (f : WeekReviewForm) : WeekReview :=
  { r with
    score := f.score
    wentWell := f.wentWell
    improve := f.improve
    onTrack := f.onTrack
    priorities := f.priorities }

/-- Handler `save_weekreview` (`web.py` 282–318): look the `(year, week)` row up;
UPDATE it when found, INSERT a fresh row otherwise. -/
def saveWeekreview (rows : List WeekReview) (year week : Int)
    (f : WeekReviewForm) : List WeekReview :=
  match rows.find? (fun r => r.year == year && r.week == week) with
  | some ex => rows.map (fun r => if r.id == ex.id then applyForm r f else r)
  | none => rows ++ [⟨nextRowId (rows.map (fun r => r.id)), year, week,
      f.score, f.wentWell, f.improve, f.onTrack, f.priorities⟩]

/-!
Context serialization for the external summarization call,
`insights.py` 22–123 (`_build_context`).  The store is modelled by its
base tables; each SQL query is a join/filter/sort over them.  `since` is
`(date.today() - timedelta(days=days)).isoformat()`, passed in directly;
TEXT date comparison is character-wise lexicographic, which coincides
with SQLite's byte-wise comparison on ASCII ISO dates.
-/

/-- Character-wise lexicographic strict order on strings (SQLite TEXT
comparison restricted to ASCII). -/
def lexLtChars : List Char → List Char → Bool
  | [], [] => false
  | [], _ :: _ => true
  | _ :: _, [] => false
  | a :: as, b :: bs => if a < b then true else if b < a then false else lexLtChars as bs

def strLt (a b : String) : Bool := lexLtChars a.data b.data

/-- SQL `>=` on TEXT. -/
def strGe (a b : String) : Bool := !(strLt a b)

/-- SQL `<=` on TEXT. -/
def strLe (a b : String) : Bool := !(strLt b a)

/-- Row of `check_ins` (`database.py` 18–23). -/
structure CheckIn where
  id : Nat
  date : String
  completed : Int
deriving DecidableEq

/-- Row of `check_in_answers` (`database.py` 25–31). -/
structure CheckInAnswer where
  checkInId : Nat
  questionId : Nat
  answerText : Option String
  answerScore : Option Int
deriving DecidableEq

/-- Row of `goals` (`database.py` 46–56); `type` is named `gtype`; a
NULL description is modelled as `""` (identical Python truthiness). -/
structure Goal where
  id : Nat
  title : String
  description : String
  gtype : String
  quarter : Option String
  year : Int
  status : String
deriving DecidableEq

/-- The base tables referenced by `_build_context`. -/
structure Store where
  questions : List Question
  checkIns : List CheckIn
  checkInAnswers : List CheckInAnswer
  weekReviews : List WeekReview
  goals : List Goal
  goalTasks : List GoalTask
  trackers : List Tracker
  trackerEntries : List TrackerEntry
deriving DecidableEq

/-- Result row of the check-in answers join (`insights.py` 28–38). -/
structure AnswerRow where
  date : String
  text : String
  qtype : String
  isCore : Int
  answerText : Option String
  answerScore : Option Int
deriving DecidableEq

/-- Result row of the tracker join (`insights.py` 101–110). -/
structure TrackRow where
  name : String
  unit : String
  date : String
  value : Int
deriving DecidableEq

/-- SQL `ORDER BY ci.date DESC, q.is_core DESC`. -/
def ansLe (a b : AnswerRow) : Bool :=
  if a.date == b.date then decide (b.isCore ≤ a.isCore) else strLt b.date a.date

/-- SQL `ORDER BY year DESC, week_number DESC`. -/
def revLe (a b : WeekReview) : Bool :=
  if a.year == b.year then decide (b.week ≤ a.week) else decide (b.year < a.year)

/-- SQLite ascending order on a nullable TEXT column: NULL first. -/
def optStrLe (a b : Option String) : Bool :=
  match a, b with
  | none, _ => true
  | some _, none => false
  | some x, some y => strLe x y

/-- SQL `ORDER BY type, year, quarter`. -/
def goalLe (a b : Goal) : Bool :=
  if a.gtype == b.gtype then
    if a.year == b.year then optStrLe a.quarter b.quarter
    else decide (a.year ≤ b.year)
  else strLe a.gtype b.gtype

/-- SQL `ORDER BY sort_order`. -/
def taskLe (a b : GoalTask) : Bool := decide (a.sortOrder ≤ b.sortOrder)

/-- SQL `ORDER BY t.name, te.date DESC`. -/
def trackLe (a b : TrackRow) : Bool :=
  if a.name == b.name then strLe b.date a.date else strLe a.name b.name

/-- The check-in answers query (`insights.py` 28–38): inner join of
answers with their check-in and question, windowed by
`ci.date >= since`, ordered by date then core flag, both descending. -/
def answersQuery (db : Store) (since : String) : List AnswerRow :=
  ((db.checkInAnswers.filterMap (fun ca =>
    match db.checkIns.find? (fun ci => ci.id == ca.checkInId),
        db.questions.find? (fun q => q.id == ca.questionId) with
    | some ci, some q =>
      some ⟨ci.date, q.text, q.qtype, q.isCore, ca.answerText, ca.answerScore⟩
    | _, _ => none)).filter (fun r => strGe r.date since)).mergeSort ansLe

/-- The week-review query (`insights.py` 52–59): all rows ordered by
`(year, week_number)` descending, `LIMIT 4`. -/
def reviewsQuery (db : Store) : List WeekReview :=
  (db.weekReviews.mergeSort revLe).take 4

/-- The goals query (`insights.py` 76–78). -/
def activeGoalsQuery (db : Store) : List Goal :=
  (db.goals.filter (fun g => g.status == "active")).mergeSort goalLe

/-- The per-goal task query (`insights.py` 91–94). -/
def goalTasksQuery (db : Store) (gid : Nat) : List GoalTask :=
  (db.goalTasks.filter (fun t => t.goalId == gid)).mergeSort taskLe

/-- The tracker query (`insights.py` 101–110). -/
def trackersQuery (db : Store) (since : String) : List TrackRow :=
  ((db.trackerEntries.filterMap (fun te =>
    (db.trackers.find? (fun t => t.id == te.trackerId)).map
      (fun t => ⟨t.name, t.unit, te.date, te.value⟩))).filter
    (fun r => strGe r.date since)).mergeSort trackLe

/-- Python `f"{v}"` for a nullable INTEGER value. -/
def pyStrOptInt : Option Int → String
  | none => "None"
  | some i => toString i

/-- Python `f"{v}"` for a nullable TEXT value. -/
def pyStrOptStr : Option String → String
  | none => "None"
  | some s => s

/-- Python `repr` of a SQLite REAL holding an integral double
(`5.0` prints as `"5.0"`); the claims only exercise integral values. -/
def pyFloatRepr (v : Int) : String := toString v ++ ".0"

/-- Python `answer = r["answer_score"] if r["type"] == "score" else
r["answer_text"]` (`insights.py` 48). -/
def answerValue (r : AnswerRow) : String :=
  if r.qtype == "score" then pyStrOptInt r.answerScore else pyStrOptStr r.answerText

/-- Loop body of the check-in section (`insights.py` 43–49), threading
`current_date` (initially `None`). -/
def checkinLines : Option String → List AnswerRow → List String
  | _, [] => []
  | cur, r :: rs =>
    if cur == some r.date then
      ("- " ++ (r.text ++ ": " ++ answerValue r)) :: checkinLines cur rs
    else
      ("\n### " ++ r.date) :: ("- " ++ (r.text ++ ": " ++ answerValue r)) ::
        checkinLines (some r.date) rs

/-- Check-in section (`insights.py` 41–49). -/
def checkinParts (rows : List AnswerRow) : List String :=
  if rows.isEmpty then [] else "## Recente check-ins" :: checkinLines none rows

/-- Python truthiness of the nullable INTEGER score: falsy when NULL or
0. -/
def scoreTruthy : Option Int → Bool
  | none => false
  | some i => !(i == 0)

/-- Lines of one week review (`insights.py` 64–73). -/
def reviewLines (r : WeekReview) : List String :=
  ("\n### " ++ ("Week " ++ toString r.week ++ " (" ++ toString r.year ++ ")")) ::
  ((if scoreTruthy r.score then ["- " ++ ("Score: " ++ pyStrOptInt r.score ++ "/10")] else []) ++
   (if r.wentWell == "" then [] else ["- " ++ ("Ging goed: " ++ r.wentWell)]) ++
   (if r.improve == "" then [] else ["- " ++ ("Verbeteren: " ++ r.improve)]) ++
   (if r.priorities == "" then [] else ["- " ++ ("Prioriteiten: " ++ r.priorities)]))

/-- Week-review section (`insights.py` 62–73). -/
def reviewParts (reviews : List WeekReview) : List String :=
  if reviews.isEmpty then []
  else "\n## Recente weekreviews" :: (reviews.map reviewLines).flatten

/-- Python `label = f"{type} {year}"` plus the quarter when truthy
(`insights.py` 84–86). -/
def goalLabel (g : Goal) : String :=
  g.gtype ++ " " ++ toString g.year ++
    (match g.quarter with
     | some q => if q == "" then "" else " " ++ q
     | none => "")

/-- Python `f"  [{status}] {title}"` with `status = "x" if completed else " "`
(`insights.py` 96–98). -/
def taskLine (t : GoalTask) : String :=
  "  " ++ ("[" ++ (if t.completed == 0 then " " else "x") ++ "] " ++ t.title)

/-- Lines of one goal with its tasks (`insights.py` 83–98). -/
def goalLines (db : Store) (g : Goal) : List String :=
  ("- " ++ ("[" ++ goalLabel g ++ "] " ++ g.title)) ::
  ((if g.description == "" then [] else ["  " ++ g.description]) ++
   (goalTasksQuery db g.id).map taskLine)

/-- Goals section (`insights.py` 81–98). -/
def goalParts (db : Store) (goals : List Goal) : List String :=
  if goals.isEmpty then []
  else "\n## Actieve doelen" :: (goals.map (goalLines db)).flatten

/-- Python `f"{name}" + (f" ({unit})" if unit else "")` (`insights.py` 117). -/
def trackerDisplayName (r : TrackRow) : String :=
  r.name ++ (if r.unit == "" then "" else " (" ++ r.unit ++ ")")

/-- Loop body of the tracker section (`insights.py` 116–121), threading
`current_tracker`. -/
def trackerLines : Option String → List TrackRow → List String
  | _, [] => []
  | cur, r :: rs =>
    if cur == some (trackerDisplayName r) then
      ("- " ++ (r.date ++ ": " ++ pyFloatRepr r.value)) :: trackerLines cur rs
    else
      ("\n### " ++ trackerDisplayName r) ::
        ("- " ++ (r.date ++ ": " ++ pyFloatRepr r.value)) ::
          trackerLines (some (trackerDisplayName r)) rs

/-- Tracker section (`insights.py` 113–121). -/
def trackerParts (rows : List TrackRow) : List String :=
  if rows.isEmpty then [] else "\n## Tracker data" :: trackerLines none rows

/-- The `parts` list of `_build_context` (`insights.py` 24–121). -/
def buildParts (db : Store) (since : String) : List String :=
  checkinParts (answersQuery db since) ++ reviewParts (reviewsQuery db) ++
    goalParts db (activeGoalsQuery db) ++ trackerParts (trackersQuery db since)

/-- Python `"\n".join`. -/
def joinLines : List String → String
  | [] => ""
  | [p] => p
  | p :: q :: ps => p ++ "\n" ++ joinLines (q :: ps)

/-- Python `return "\n".join(parts) if parts else "Nog geen data beschikbaar."`
(`insights.py` 123). -/
def buildContext (db : Store) (since : String) : String :=
  if (buildParts db since).isEmpty then "Nog geen data beschikbaar."
  else joinLines (buildParts db since)

/-- Boolean prefix test on character lists, used to separate the
section headers from the body lines. -/
def chLeads : List Char → List Char → Bool
  | [], _ => true
  | _ :: _, [] => false
  | a :: as, b :: bs => a == b && chLeads as bs

/-- Shape of every non-header line `_build_context` appends: a date or
tracker sub-header, a `"- "` item, or a `"  "` detail line. -/
def partShape (p : String) : Prop :=
  (∃ s, p = "\n### " ++ s) ∨ (∃ s, p = "- " ++ s) ∨ (∃ s, p = "  " ++ s)

/-- A store with every table empty. -/
def emptyStore : Store := ⟨[], [], [], [], [], [], [], []⟩

theorem calculateStreakGo_eq (l : List Int) :
    ∀ c s, calculateStreakGo c s l = s + streakRun c l := by
  induction l with
  | nil => intro c s; simp [calculateStreakGo, streakRun]
  | cons d ds ih =>
    intro c s
    by_cases h1 : d = c
    · subst h1
      simp [calculateStreakGo, streakRun, ih]
      omega
    · by_cases h2 : d = c - 1
      · simp [calculateStreakGo, streakRun, h1, h2, ih]
        omega
      · simp [calculateStreakGo, streakRun, h1, h2]

theorem calculateStreak_eq_streakRun (today : Int) (dates : List Int) :
    calculateStreak today dates = streakRun today dates := by
  cases dates with
  | nil => simp [calculateStreak, streakRun]
  | cons d ds =>
    simp [calculateStreak, List.isEmpty, calculateStreakGo_eq]

theorem streakRun_spec (l : List Int) :
    ∀ c, runOk c (l.take (streakRun c l)) ∧
      ∀ k, k ≤ l.length → runOk c (l.take k) → k ≤ streakRun c l := by
  induction l with
  | nil =>
    intro c
    refine ⟨trivial, ?_⟩
    intro k hk _
    simp only [List.length_nil, Nat.le_zero] at hk
    subst hk
    exact Nat.zero_le _
  | cons d ds ih =>
    intro c
    by_cases hacc : d = c ∨ d = c - 1
    · have hrun : streakRun c (d :: ds) = streakRun (d - 1) ds + 1 := by
        rcases hacc with h | h <;> simp [streakRun, h]
      have head : c - d = 0 ∨ c - d = 1 := by rcases hacc with h | h <;> omega
      constructor
      · rw [hrun]
        simp only [List.take_succ_cons]
        refine ⟨head, ?_⟩
        have htail := (ih (d - 1)).1
        cases htake : (ds.take (streakRun (d - 1) ds)) with
        | nil => simp
        | cons e es =>
          rw [htake] at htail
          rcases htail with ⟨he, hchain⟩
          rw [List.chain'_cons]
          exact ⟨by unfold gapOk; omega, hchain⟩
      · intro k hk hok
        cases k with
        | zero => omega
        | succ j =>
          rw [hrun]
          simp only [List.take_succ_cons] at hok
          rcases hok with ⟨_, hchain⟩
          have hj : j ≤ ds.length := by simpa using hk
          have hjok : runOk (d - 1) (ds.take j) := by
            cases htake : (ds.take j) with
            | nil => trivial
            | cons e es =>
              rw [htake] at hchain
              rw [List.chain'_cons] at hchain
              rcases hchain with ⟨hde, hch⟩
              exact ⟨by unfold gapOk at hde; omega, hch⟩
          have := (ih (d - 1)).2 j hj hjok
          omega
    · push_neg at hacc
      have hrun : streakRun c (d :: ds) = 0 := by
        simp [streakRun, hacc.1, hacc.2]
      rw [hrun]
      refine ⟨trivial, ?_⟩
      intro k hk hok
      cases k with
      | zero => exact Nat.le_refl 0
      | succ j =>
        simp only [List.take_succ_cons] at hok
        rcases hok with ⟨hhead, _⟩
        rcases hacc with ⟨h1, h2⟩
        omega

/-- C1 (amended): for every today and every date list, `_calculate_streak`
returns the length of the longest prefix of the list that starts at today
or yesterday and in which each later date is exactly 1 or 2 days before
its predecessor — a one-day gap is tolerated at every step of the walk,
not only between today and yesterday at the start. -/
theorem calculateStreak_longest_gap_tolerant_run (today : Int) (dates : List Int) :
    runOk today (dates.take (calculateStreak today dates)) ∧
      ∀ k, k ≤ dates.length → runOk today (dates.take k) →
        k ≤ calculateStreak today dates := by
  rw [calculateStreak_eq_streakRun]
  exact streakRun_spec dates today

/-- Witness for the amended C1 theorem at a concrete input: for
today = day 10, dates `[10, 9, 7]`, the prefix `[10, 9]` is accepted, so
the theorem forces the streak to be at least 2 (it is in fact 3). -/
theorem calculateStreak_longest_gap_tolerant_run_witness :
    2 ≤ calculateStreak 10 [10, 9, 7] :=
  (calculateStreak_longest_gap_tolerant_run 10 [10, 9, 7]).2 2
    (by decide)
    (by
      show runOk 10 ([10, 9, 7].take 2)
      simp only [List.take_succ_cons, List.take_zero]
      exact ⟨Or.inl (by decide),
        List.chain'_cons.mpr ⟨Or.inl (by decide), List.chain'_singleton _⟩⟩)

/-- C1 counterexample: on the strictly descending, duplicate-free list
`[2024-01-10, 2024-01-08]` with today = 2024-01-10, the code returns 2,
while the unbroken run of consecutive days ending at today has length 1:
the walk tolerates the one-day gap after 2024-01-10 instead of stopping
at it. -/
theorem calculateStreak_counterexample_gap_tolerated :
    toOrdinal 2024 1 8 < toOrdinal 2024 1 10 ∧
      calculateStreak (toOrdinal 2024 1 10)
        [toOrdinal 2024 1 10, toOrdinal 2024 1 8] = 2 ∧
      claimedStreak (toOrdinal 2024 1 10)
        [toOrdinal 2024 1 10, toOrdinal 2024 1 8] = 1 := by
  refine ⟨by decide, by decide, by decide⟩

/-- C2: the four reference cases of `_calculate_streak` from spec §8:
empty list gives 0 (for every today); three consecutive days ending today
give 3; yesterday alone gives 1 (yesterday fallback); a five-day-old
single check-in gives 0. -/
theorem calculateStreak_reference_cases :
    (∀ today : Int, calculateStreak today [] = 0) ∧
      calculateStreak (toOrdinal 2024 1 10)
        [toOrdinal 2024 1 10, toOrdinal 2024 1 9, toOrdinal 2024 1 8] = 3 ∧
      calculateStreak (toOrdinal 2024 1 10) [toOrdinal 2024 1 9] = 1 ∧
      calculateStreak (toOrdinal 2024 1 10) [toOrdinal 2024 1 5] = 0 := by
  refine ⟨fun today => rfl, by decide, by decide, by decide⟩

theorem randbelowLoop_lt (g : Randbits) (seed n k : Nat) :
    ∀ fuel i r st, randbelowLoop g seed n k i fuel = some (r, st) → r < n := by
  intro fuel
  induction fuel with
  | zero => intro i r st h; exact absurd h (by simp [randbelowLoop])
  | succ m ih =>
    intro i r st h
    unfold randbelowLoop at h
    by_cases hr : g seed i k % 2 ^ k < n
    · simp only [hr, if_true] at h
      cases h
      exact hr
    · simp only [hr, if_false] at h
      exact ih (i + 1) r st h

theorem randbelow_lt (g : Randbits) (seed n i fuel : Nat) (r st : Nat)
    (hn : 0 < n) (h : randbelow g seed n i fuel = some (r, st)) : r < n := by
  unfold randbelow at h
  rw [if_neg (Nat.pos_iff_ne_zero.mp hn)] at h
  exact randbelowLoop_lt g seed n (Nat.size n) fuel i r st h

theorem sampleSelPick_spec (g : Randbits) (seed fuel n : Nat)
    (selected : List Nat) (hn : 0 < n) :
    ∀ rfuel st j st1,
      sampleSelPick g seed fuel n selected st rfuel = some (j, st1) →
      j < n ∧ j ∉ selected := by
  intro rfuel
  induction rfuel with
  | zero => intro st j st1 h; exact absurd h (by simp [sampleSelPick])
  | succ m ih =>
    intro st j st1 h
    unfold sampleSelPick at h
    cases hrb : randbelow g seed n st fuel with
    | none => rw [hrb] at h; exact absurd h (by simp)
    | some p =>
      rw [hrb] at h
      by_cases hmem : p.1 ∈ selected
      · simp only [hmem, if_true] at h
        exact ih p.2 j st1 h
      · simp only [hmem, if_false] at h
        cases h
        exact ⟨randbelow_lt g seed n st fuel p.1 p.2 hn hrb, hmem⟩

/-- Removing element `j` from the live prefix by swapping in the last
live element is a permutation: the core step of the pool branch of
`Random.sample`. -/
theorem cons_set_take_perm {α : Type} (l : List α) (j : Nat) (x y : α)
    (hx : l[j]? = some x) (hy : l[l.length - 1]? = some y) :
    List.Perm (x :: (l.set j y).take (l.length - 1)) l := by
  obtain ⟨hj, hxe⟩ := List.getElem?_eq_some_iff.mp hx
  obtain ⟨hl1, hye⟩ := List.getElem?_eq_some_iff.mp hy
  have hlen : 0 < l.length := by omega
  rw [List.set_eq_take_append_cons_drop, if_pos hj]
  by_cases hjl : j = l.length - 1
  · subst hjl
    have hxy : x = y := by rw [← hxe, ← hye]
    subst hxy
    rw [List.take_append_of_le_length (by rw [List.length_take]; omega),
      List.take_of_length_le (by rw [List.length_take]; omega)]
    have hl0 : l ≠ [] := List.ne_nil_of_length_pos hlen
    rw [← List.dropLast_eq_take]
    have h1 : List.Perm (x :: l.dropLast) (l.dropLast ++ [x]) :=
      (List.perm_append_singleton x l.dropLast).symm
    have h2 : l.dropLast ++ [x] = l := by
      rw [← List.getLast_eq_getElem l hl0] at hxe
      rw [← hxe]
      exact List.dropLast_append_getLast hl0
    rw [h2] at h1
    exact h1
  · have hjlt : j < l.length - 1 := by omega
    have hAlen : (List.take j l).length = j := by rw [List.length_take]; omega
    have hBlen : (List.drop (j + 1) l).length = l.length - j - 1 := List.length_drop _ _
    have hBne : List.drop (j + 1) l ≠ [] := by
      apply List.ne_nil_of_length_pos; omega
    have hsplit : List.take (l.length - 1) (List.take j l ++ y :: List.drop (j + 1) l) =
        List.take j l ++ y :: List.take (l.length - 1 - j - 1) (List.drop (j + 1) l) := by
      rw [List.take_append_eq_append_take, List.take_of_length_le (by omega)]
      congr 1
      have he : l.length - 1 - (List.take j l).length = (l.length - 1 - j - 1) + 1 := by omega
      rw [he, List.take_succ_cons]
    rw [hsplit]
    have hD : List.take (l.length - 1 - j - 1) (List.drop (j + 1) l) =
        (List.drop (j + 1) l).dropLast := by
      rw [List.dropLast_eq_take]
      congr 1
      omega
    rw [hD]
    have hyB : (List.drop (j + 1) l).getLast hBne = y := by
      rw [List.getLast_eq_getElem _ hBne, List.getElem_drop, ← hye]
      congr 1
      omega
    have hBsplit : (List.drop (j + 1) l).dropLast ++ [y] = List.drop (j + 1) l := by
      rw [← hyB]; exact List.dropLast_append_getLast hBne
    have hlsplit : List.take j l ++ x :: List.drop (j + 1) l = l := by
      rw [← hxe, ← List.drop_eq_getElem_cons hj]
      exact List.take_append_drop j l
    have h1 : List.Perm (x :: (List.take j l ++ y :: (List.drop (j + 1) l).dropLast))
        (x :: (y :: (List.take j l ++ (List.drop (j + 1) l).dropLast))) :=
      List.Perm.cons x List.perm_middle
    have h2 : List.Perm (y :: (List.take j l ++ (List.drop (j + 1) l).dropLast))
        ((List.take j l ++ (List.drop (j + 1) l).dropLast) ++ [y]) :=
      (List.perm_append_singleton y (List.take j l ++ (List.drop (j + 1) l).dropLast)).symm
    have h3 : (List.take j l ++ (List.drop (j + 1) l).dropLast) ++ [y] =
        List.take j l ++ List.drop (j + 1) l := by
      rw [List.append_assoc, hBsplit]
    have h4 : List.Perm (x :: (List.take j l ++ List.drop (j + 1) l))
        (List.take j l ++ x :: List.drop (j + 1) l) := List.perm_middle.symm
    rw [h3] at h2
    rw [hlsplit] at h4
    exact (h1.trans (List.Perm.cons x h2)).trans h4

theorem subperm_nodup {α : Type} {l₁ l₂ : List α} (h : l₁.Subperm l₂)
    (hnd : l₂.Nodup) : l₁.Nodup := by
  obtain ⟨l, hp, hs⟩ := h
  exact hp.nodup_iff.mp (List.Nodup.sublist hs hnd)

theorem samplePoolGo_subperm {α : Type} (g : Randbits) (seed fuel n : Nat) :
    ∀ (rem i : Nat) (pool : List α) (st : Nat) (acc out : List α) (st2 : Nat),
      pool.length = n → i + rem ≤ n →
      samplePoolGo g seed fuel n i rem pool st acc = some (out, st2) →
      ∃ picked : List α, out = acc.reverse ++ picked ∧ picked.length = rem ∧
        picked.Subperm (pool.take (n - i)) := by
  intro rem
  induction rem with
  | zero =>
    intro i pool st acc out st2 _ _ h
    simp only [samplePoolGo, Option.some.injEq, Prod.mk.injEq] at h
    exact ⟨[], by rw [← h.1, List.append_nil], rfl, List.nil_subperm⟩
  | succ m ih =>
    intro i pool st acc out st2 hlen hle h
    unfold samplePoolGo at h
    split at h
    · exact absurd h (by simp)
    · rename_i j st1 hrb
      have hni : 0 < n - i := by omega
      have hj : j < n - i := randbelow_lt g seed (n - i) st fuel j st1 hni hrb
      split at h
      · rename_i x y hx hy
        obtain ⟨picked, hout, hlenp, hsub⟩ :=
          ih (i + 1) (pool.set j y) st1 (x :: acc) out st2
            (by rw [List.length_set]; exact hlen) (by omega) h
        refine ⟨x :: picked, ?_, by simp [hlenp], ?_⟩
        · rw [hout, List.reverse_cons, List.append_assoc]
          rfl
        · have hL : (pool.take (n - i)).length = n - i :=
            List.length_take_of_le (by omega)
          have hLx : (pool.take (n - i))[j]? = some x := by
            rw [List.getElem?_take, if_pos hj]; exact hx
          have hLy : (pool.take (n - i))[(pool.take (n - i)).length - 1]? = some y := by
            rw [hL, List.getElem?_take, if_pos (by omega)]
            have he : n - i - 1 = n - (i + 1) := by omega
            rw [he] at hy ⊢
            exact hy
          have hperm := cons_set_take_perm (pool.take (n - i)) j x y hLx hLy
          have hE : (pool.set j y).take (n - (i + 1)) =
              ((pool.take (n - i)).set j y).take ((pool.take (n - i)).length - 1) := by
            rw [hL, List.set_take, List.set_take, List.take_take,
              min_eq_left (by omega)]
            congr 2
          rw [hE] at hsub
          have hcons : (x :: picked).Subperm
              (x :: ((pool.take (n - i)).set j y).take ((pool.take (n - i)).length - 1)) :=
            (List.subperm_cons x).mpr hsub
          exact hcons.trans hperm.subperm
      · exact absurd h (by simp)

theorem sampleSelGo_spec {α : Type} (g : Randbits) (seed fuel n : Nat)
    (population : List α) (hlen : population.length = n)
    (hn : 0 < n) :
    ∀ (rem : Nat) (selected : List Nat) (st : Nat) (acc : List α) (out : List α) (st2 : Nat),
      (∀ j ∈ selected, j < n) → selected.Nodup →
      acc = selected.filterMap (fun j => population[j]?) →
      sampleSelGo g seed fuel n population rem selected st acc = some (out, st2) →
      out.length = rem + acc.length ∧ (population.Nodup → out.Nodup) ∧
        ∀ x ∈ out, x ∈ population := by
  intro rem
  induction rem with
  | zero =>
    intro selected st acc out st2 hjlt hselnd hacc h
    simp only [sampleSelGo, Option.some.injEq, Prod.mk.injEq] at h
    obtain ⟨h1, _⟩ := h
    subst h1
    refine ⟨by simp, ?_, ?_⟩
    · intro hnd
      rw [List.nodup_reverse, hacc]
      clear hacc
      induction selected with
      | nil => simp
      | cons j js ihs =>
        simp only [List.filterMap_cons]
        have hjn : j < n := hjlt j (by simp)
        have hjp : j < population.length := by omega
        rw [List.getElem?_eq_some_iff.mpr ⟨hjp, rfl⟩]
        rw [List.nodup_cons] at hselnd ⊢
        refine ⟨?_, ihs (fun a ha => hjlt a (by simp [ha])) hselnd.2⟩
        intro hmem
        obtain ⟨a, ha, hpa⟩ := List.mem_filterMap.mp hmem
        have han : a < n := hjlt a (by simp [ha])
        have hap : a < population.length := by omega
        rw [List.getElem?_eq_some_iff.mpr ⟨hap, rfl⟩] at hpa
        have : a = j := by
          have := (hnd.getElem_inj_iff).mp (Option.some.injEq _ _ ▸ hpa :
            population[a] = population[j])
          omega
        exact hselnd.1 (this ▸ ha)
    · intro x hx
      rw [List.mem_reverse, hacc] at hx
      obtain ⟨a, _, hpa⟩ := List.mem_filterMap.mp hx
      obtain ⟨hap, hae⟩ := List.getElem?_eq_some_iff.mp hpa
      exact hae ▸ List.getElem_mem hap
  | succ m ih =>
    intro selected st acc out st2 hjlt hselnd hacc h
    unfold sampleSelGo at h
    split at h
    · exact absurd h (by simp)
    · rename_i j st1 hpick
      obtain ⟨hjn, hjsel⟩ := sampleSelPick_spec g seed fuel n selected hn fuel st j st1 hpick
      split at h
      · rename_i x hx
        have hrec := ih (j :: selected) st1 (x :: acc) out st2
          (by intro a ha; rcases List.mem_cons.mp ha with h1 | h1
              · omega
              · exact hjlt a h1)
          (List.nodup_cons.mpr ⟨hjsel, hselnd⟩)
          (by simp only [List.filterMap_cons, hx]; rw [hacc])
          h
        refine ⟨?_, hrec.2.1, hrec.2.2⟩
        have := hrec.1
        simp only [List.length_cons] at this
        omega
      · exact absurd h (by simp)

/-- Any successful `Random.sample(population, k)` call on a
duplicate-free population returns `k` pairwise-distinct members of the
population. -/
theorem sample_spec {α : Type} (g : Randbits) (seed fuel : Nat)
    (population : List α) (k st : Nat) (out : List α) (st2 : Nat)
    (h : sample g seed fuel population k st = some (out, st2)) :
    out.length = k ∧ (population.Nodup → out.Nodup) ∧ ∀ x ∈ out, x ∈ population := by
  unfold sample at h
  split at h
  · rename_i hk
    split at h
    · obtain ⟨picked, hout, hlenp, hsub⟩ :=
        samplePoolGo_subperm g seed fuel population.length k 0 population st [] out st2
          rfl (by omega) h
      simp only [List.reverse_nil, List.nil_append] at hout
      subst hout
      rw [Nat.sub_zero, List.take_length] at hsub
      exact ⟨hlenp, fun hnd => subperm_nodup hsub hnd, fun x hx => hsub.subset hx⟩
    · rename_i hbig
      have hn : 0 < population.length := by
        have : 21 ≤ sampleSetsize k := by
          unfold sampleSetsize
          split
          · exact Nat.le_refl 21
          · exact Nat.le_add_right 21 _
        omega
      have := sampleSelGo_spec g seed fuel population.length population rfl hn
        k [] st [] out st2 (by intro j hj; simp at hj) List.nodup_nil (by simp) h
      simpa using this
  · exact absurd h (by simp)

/-- C3: for every date and fixed question table, `get_daily_questions`
is a pure function of (date, question set): two calls with the same date
return the identical list, and the result is every active core daily
question first, followed by the sampled extras, which are pairwise
distinct members of the non-core active daily pool. -/
theorem getDailyQuestions_pure_core_first_distinct_extras
    (g : Randbits) (fuel : Nat) (d : Ymd) (table : List Question)
    (res : List Question)
    (hnd : (poolQuestions table).Nodup)
    (h : getDailyQuestions g fuel d table = some res) :
    (∀ e : Ymd, e = d → getDailyQuestions g fuel e table = some res) ∧
    ∃ extra : List Question,
      res = coreQuestions table ++ extra ∧ extra.Nodup ∧
      ∀ q ∈ extra, q ∈ poolQuestions table ∧ q.isCore = 0 := by
  refine ⟨fun e he => he ▸ h, ?_⟩
  unfold getDailyQuestions getDailyQuestionsWithSeed at h
  split at h
  · exact absurd h (by simp)
  · rename_i c st hri
    split at h
    · exact absurd h (by simp)
    · rename_i extra st3 hs
      obtain ⟨_, hnodup, hmem⟩ := sample_spec g (dateSeed d) fuel
        (poolQuestions table) (min c (poolQuestions table).length) st extra st3 hs
      simp only [Option.some.injEq] at h
      refine ⟨extra, h.symm, hnodup hnd, ?_⟩
      intro q hq
      have hq2 := hmem q hq
      refine ⟨hq2, ?_⟩
      unfold poolQuestions at hq2
      have := (List.mem_filter.mp hq2).2
      exact beq_iff_eq.mp this

/-- C4: the seed fed to the generator is the integer `YYYYMMDD` of the
date, and every successful call returns the core questions plus
`min c |pool|` extras for a drawn count `c ∈ {3, 4, 5}` — the draw is
clamped to the pool size. -/
theorem getDailyQuestions_seed_and_extra_count
    (g : Randbits) (fuel : Nat) (d : Ymd) (table : List Question)
    (res : List Question)
    (h : getDailyQuestions g fuel d table = some res) :
    getDailyQuestions g fuel d table =
      getDailyQuestionsWithSeed g fuel
        (10000 * d.year + 100 * d.month + d.day) table ∧
    ∃ c, (c = 3 ∨ c = 4 ∨ c = 5) ∧
      res.length = (coreQuestions table).length +
        min c (poolQuestions table).length := by
  refine ⟨rfl, ?_⟩
  unfold getDailyQuestions getDailyQuestionsWithSeed at h
  split at h
  · exact absurd h (by simp)
  · rename_i c st hri
    split at h
    · exact absurd h (by simp)
    · rename_i extra st3 hs
      obtain ⟨hlen, _, _⟩ := sample_spec g (dateSeed d) fuel
        (poolQuestions table) (min c (poolQuestions table).length) st extra st3 hs
      simp only [Option.some.injEq] at h
      refine ⟨c, ?_, ?_⟩
      · unfold randint at hri
        cases hrb : randbelow g (dateSeed d) (5 + 1 - 3) 0 fuel with
        | none => rw [hrb] at hri; exact absurd hri (by simp)
        | some p =>
          rw [hrb] at hri
          simp only [Option.map_some', Option.some.injEq, Prod.mk.injEq] at hri
          have hp : p.1 < 3 := randbelow_lt g (dateSeed d) 3 0 fuel p.1 p.2
            (by omega) hrb
          omega
      · rw [← h, List.length_append, hlen]

/-- Witness for the C3 theorem at a concrete date, table and generator. -/
theorem getDailyQuestions_pure_core_first_distinct_extras_witness :
    (∀ e : Ymd, e = ⟨2024, 1, 10⟩ →
      getDailyQuestions sampleGen0 8 e questionsTable =
        some [⟨1, "k1", "score", "daily", 1, 1⟩, ⟨2, "k2", "open", "daily", 1, 1⟩,
          ⟨3, "p1", "score", "daily", 0, 1⟩, ⟨6, "p4", "open", "daily", 0, 1⟩,
          ⟨5, "p3", "open", "daily", 0, 1⟩]) ∧
    ∃ extra : List Question,
      [⟨1, "k1", "score", "daily", 1, 1⟩, ⟨2, "k2", "open", "daily", 1, 1⟩,
        ⟨3, "p1", "score", "daily", 0, 1⟩, ⟨6, "p4", "open", "daily", 0, 1⟩,
        ⟨5, "p3", "open", "daily", 0, 1⟩] = coreQuestions questionsTable ++ extra ∧
      extra.Nodup ∧
      ∀ q ∈ extra, q ∈ poolQuestions questionsTable ∧ q.isCore = 0 :=
  getDailyQuestions_pure_core_first_distinct_extras sampleGen0 8 ⟨2024, 1, 10⟩
    questionsTable _ (by decide) (by decide)

/-- Witness for the C4 theorem at a concrete date, table and generator. -/
theorem getDailyQuestions_seed_and_extra_count_witness :
    getDailyQuestions sampleGen0 8 ⟨2024, 1, 10⟩ questionsTable =
      getDailyQuestionsWithSeed sampleGen0 8 20240110 questionsTable ∧
    ∃ c, (c = 3 ∨ c = 4 ∨ c = 5) ∧
      ([⟨1, "k1", "score", "daily", 1, 1⟩, ⟨2, "k2", "open", "daily", 1, 1⟩,
        ⟨3, "p1", "score", "daily", 0, 1⟩, ⟨6, "p4", "open", "daily", 0, 1⟩,
        (⟨5, "p3", "open", "daily", 0, 1⟩ : Question)] : List Question).length =
        (coreQuestions questionsTable).length +
          min c (poolQuestions questionsTable).length :=
  getDailyQuestions_seed_and_extra_count sampleGen0 8 ⟨2024, 1, 10⟩
    questionsTable _ (by decide)

theorem upsert_map_entryKey (rows : List TrackerEntry) (t : Nat) (d : String)
    (v : Int) :
    (rows.map (fun e =>
      if e.trackerId == t && e.date == d then { e with value := v } else e)).map
        entryKey = rows.map entryKey := by
  rw [List.map_map]
  apply List.map_congr_left
  intro e _
  simp only [Function.comp_apply]
  split
  · rfl
  · rfl

theorem upsert_preserves_atMostOne (rows : List TrackerEntry) (t : Nat)
    (d : String) (v : Int) (hinv : atMostOnePerKey rows) :
    atMostOnePerKey (upsertTrackerEntry rows t d v) := by
  unfold upsertTrackerEntry
  split
  · unfold atMostOnePerKey
    rw [upsert_map_entryKey]
    exact hinv
  · rename_i hany
    unfold atMostOnePerKey
    rw [List.map_append]
    simp only [List.map_cons, List.map_nil]
    rw [List.nodup_append]
    refine ⟨hinv, List.nodup_singleton _, ?_⟩
    intro k hk hk2
    simp only [entryKey, List.mem_singleton] at hk2
    subst hk2
    obtain ⟨e, he, hke⟩ := List.mem_map.mp hk
    apply hany
    rw [List.any_eq_true]
    refine ⟨e, he, ?_⟩
    unfold entryKey at hke
    have h1 : e.trackerId = t := congrArg Prod.fst hke
    have h2 : e.date = d := congrArg Prod.snd hke
    simp [h1, h2]

theorem saveCheckin_preserves_atMostOne (items : List (Nat × Int))
    (today : String) :
    ∀ rows, atMostOnePerKey rows →
      atMostOnePerKey (saveCheckinTrackerEntries items today rows) := by
  induction items with
  | nil => intro rows h; exact h
  | cons p ps ih =>
    intro rows h
    exact ih (upsertTrackerEntry rows p.1 today p.2)
      (upsert_preserves_atMostOne rows p.1 today p.2 h)

theorem filter_upsertMap_of_no_match (es : List TrackerEntry) (t : Nat)
    (d : String) (v : Int)
    (h : ∀ e ∈ es, ¬(e.trackerId = t ∧ e.date = d)) :
    (es.map (fun e =>
      if e.trackerId == t && e.date == d then { e with value := v } else e)).filter
        (fun e => e.trackerId == t && e.date == d) = [] := by
  induction es with
  | nil => rfl
  | cons e es2 ih =>
    have hne : ¬(e.trackerId == t && e.date == d) = true := by
      intro hb
      simp only [Bool.and_eq_true, beq_iff_eq] at hb
      exact h e (by simp) hb
    have hhead : (if e.trackerId == t && e.date == d then
        ({ e with value := v } : TrackerEntry) else e) = e := if_neg hne
    simp only [List.map_cons, hhead, List.filter_cons]
    rw [if_neg hne]
    exact ih (fun x hx => h x (by simp [hx]))

theorem filter_updMap_eq (t : Nat) (d : String) (v : Int) :
    ∀ rows : List TrackerEntry, atMostOnePerKey rows →
      rows.any (fun e => e.trackerId == t && e.date == d) = true →
      (rows.map (fun e =>
        if e.trackerId == t && e.date == d then { e with value := v } else e)).filter
          (fun e => e.trackerId == t && e.date == d) = [⟨t, d, v⟩] := by
  intro rows
  induction rows with
  | nil => intro _ hany; simp at hany
  | cons e es ih =>
    intro hinv hany
    by_cases hm : (e.trackerId == t && e.date == d) = true
    · obtain ⟨h1, h2⟩ : e.trackerId = t ∧ e.date = d := by
        simpa only [Bool.and_eq_true, beq_iff_eq] using hm
      have hhead : (if e.trackerId == t && e.date == d then
          ({ e with value := v } : TrackerEntry) else e) = ⟨t, d, v⟩ := by
        rw [if_pos hm]
        cases e
        simp_all
      simp only [List.map_cons, hhead, List.filter_cons]
      rw [if_pos (by simp)]
      have hrest : ∀ x ∈ es, ¬(x.trackerId = t ∧ x.date = d) := by
        intro x hx hxk
        unfold atMostOnePerKey at hinv
        simp only [List.map_cons, List.nodup_cons] at hinv
        apply hinv.1
        have hke : entryKey x = entryKey e := by
          unfold entryKey
          rw [hxk.1, hxk.2, h1, h2]
        rw [← hke]
        exact List.mem_map.mpr ⟨x, hx, rfl⟩
      rw [filter_upsertMap_of_no_match es t d v hrest]
    · have hhead : (if e.trackerId == t && e.date == d then
          ({ e with value := v } : TrackerEntry) else e) = e := if_neg hm
      simp only [List.map_cons, hhead, List.filter_cons]
      rw [if_neg hm]
      apply ih
      · unfold atMostOnePerKey at hinv ⊢
        simp only [List.map_cons, List.nodup_cons] at hinv
        exact hinv.2
      · rcases List.any_eq_true.mp hany with ⟨x, hx, hxm⟩
        rcases List.mem_cons.mp hx with h | h
        · exact absurd (h ▸ hxm) hm
        · exact List.any_eq_true.mpr ⟨x, h, hxm⟩

theorem upsert_filter_eq (rows : List TrackerEntry) (t : Nat) (d : String)
    (v : Int) (hinv : atMostOnePerKey rows) :
    (upsertTrackerEntry rows t d v).filter
      (fun e => e.trackerId == t && e.date == d) = [⟨t, d, v⟩] := by
  unfold upsertTrackerEntry
  split
  · rename_i hany
    exact filter_updMap_eq t d v rows hinv hany
  · rename_i hany
    rw [List.filter_append]
    have h1 : rows.filter (fun e => e.trackerId == t && e.date == d) = [] := by
      rw [List.filter_eq_nil_iff]
      intro e he
      intro hm
      exact hany (List.any_eq_true.mpr ⟨e, he, hm⟩)
    rw [h1]
    simp

/-- C5: the store keeps at most one `tracker_entries` row per
`(tracker, date)` pair across any sequence of tracker upserts performed
by `save_checkin`, and upserting value 5 and then value 7 for the same
pair leaves exactly one row for that pair, holding 7. -/
theorem trackerEntries_unique_upsert (items : List (Nat × Int))
    (today : String) (rows : List TrackerEntry) (t : Nat) (d : String)
    (hinv : atMostOnePerKey rows) :
    atMostOnePerKey (saveCheckinTrackerEntries items today rows) ∧
    atMostOnePerKey (upsertTrackerEntry (upsertTrackerEntry rows t d 5) t d 7) ∧
    (upsertTrackerEntry (upsertTrackerEntry rows t d 5) t d 7).filter
      (fun e => e.trackerId == t && e.date == d) = [⟨t, d, 7⟩] := by
  have h5 := upsert_preserves_atMostOne rows t d 5 hinv
  refine ⟨saveCheckin_preserves_atMostOne items today rows hinv,
    upsert_preserves_atMostOne _ t d 7 h5, upsert_filter_eq _ t d 7 h5⟩

/-- Witness for C5 at a concrete store, form and key. -/
theorem trackerEntries_unique_upsert_witness :
    atMostOnePerKey (saveCheckinTrackerEntries [(1, 2), (2, 3)] "2024-01-10"
      [⟨9, "2024-01-09", 4⟩]) ∧
    atMostOnePerKey (upsertTrackerEntry
      (upsertTrackerEntry [⟨9, "2024-01-09", 4⟩] 1 "2024-01-10" 5) 1 "2024-01-10" 7) ∧
    (upsertTrackerEntry
      (upsertTrackerEntry [⟨9, "2024-01-09", 4⟩] 1 "2024-01-10" 5) 1 "2024-01-10" 7).filter
      (fun e => e.trackerId == 1 && e.date == "2024-01-10") = [⟨1, "2024-01-10", 7⟩] :=
  trackerEntries_unique_upsert [(1, 2), (2, 3)] "2024-01-10"
    [⟨9, "2024-01-09", 4⟩] 1 "2024-01-10" (by decide)

/-- C8 counterexample: creating a goal task with an empty title and a
tracker with an empty name does not fail with a `ValidationError` — both
handlers return an ordinary redirect (`.ok`), leaving the store
unchanged; no error propagates to the caller. -/
theorem creation_missing_field_no_error_counterexample :
    addGoalTask [] 1 "" = .ok ([], .redirect "/goals") ∧
    createTracker [] "" "" "number" = .ok ([], .redirect "/trackers") ∧
    (addGoalTask [] 1 "").isOk = true ∧ (createTracker [] "" "" "number").isOk = true :=
  ⟨rfl, rfl, rfl, rfl⟩

/-- C8 (amended): creating an entity with a missing required field
(empty goal-task title, empty tracker name) raises nothing: the handler
returns a plain redirect and the store is left unchanged — validation
failure is a silent no-op, not a propagating `ValidationError`. -/
theorem creation_missing_field_silent_redirect (tasks : List GoalTask)
    (trackers : List Tracker) (goalId : Nat) (title name unit ttype : String)
    (ht : pyStrip title = "") (hn : pyStrip name = "") :
    addGoalTask tasks goalId title = .ok (tasks, .redirect "/goals") ∧
    createTracker trackers name unit ttype = .ok (trackers, .redirect "/trackers") := by
  constructor
  · unfold addGoalTask
    rw [if_pos ht]
  · unfold createTracker
    rw [if_pos hn]

/-- Witness for the amended C8 theorem at concrete stores and forms. -/
theorem creation_missing_field_silent_redirect_witness :
    addGoalTask [⟨1, 1, "a", 0, 0⟩] 1 "  " = .ok ([⟨1, 1, "a", 0, 0⟩], .redirect "/goals") ∧
    createTracker [⟨1, "w", "", "number", 1, 0⟩] " " "u" "number" =
      .ok ([⟨1, "w", "", "number", 1, 0⟩], .redirect "/trackers") :=
  creation_missing_field_silent_redirect [⟨1, 1, "a", 0, 0⟩]
    [⟨1, "w", "", "number", 1, 0⟩] 1 "  " " " "u" "number" rfl rfl

theorem deleteGoalTask_length (taskId : Nat) :
    ∀ tasks : List GoalTask, (tasks.map (fun t => t.id)).Nodup →
      taskId ∈ tasks.map (fun t => t.id) →
      (deleteGoalTask tasks taskId).length + 1 = tasks.length := by
  intro tasks
  induction tasks with
  | nil => intro _ h; simp at h
  | cons e es ih =>
    intro hnd hmem
    unfold deleteGoalTask at ih ⊢
    by_cases he : e.id = taskId
    · rw [List.filter_cons, if_neg (by simp [he])]
      have hrest : es.filter (fun t => !(t.id == taskId)) = es := by
        rw [List.filter_eq_self]
        intro x hx
        simp only [List.map_cons, List.nodup_cons] at hnd
        have : x.id ≠ taskId := by
          intro hxe
          exact hnd.1 (he ▸ hxe ▸ List.mem_map.mpr ⟨x, hx, rfl⟩)
        simp [this]
      rw [hrest]
      simp
    · rw [List.filter_cons, if_pos (by simp [he])]
      simp only [List.length_cons]
      have hmem2 : taskId ∈ es.map (fun t => t.id) := by
        simp only [List.map_cons, List.mem_cons] at hmem
        rcases hmem with h | h
        · exact absurd h.symm he
        · exact h
      have hnd2 : (es.map (fun t => t.id)).Nodup := by
        simp only [List.map_cons, List.nodup_cons] at hnd
        exact hnd.2
      rw [← ih hnd2 hmem2]

/-- C9: for every goal-task id present in the store, `delete_goal_task`
removes exactly that one row: the result is a sublist of the original
with one row fewer, every surviving row is an original row with a
different id (sort order, title and completion untouched), and every
original row with a different id survives. -/
theorem deleteGoalTask_removes_exactly_one (tasks : List GoalTask) (taskId : Nat)
    (hnd : (tasks.map (fun t => t.id)).Nodup)
    (hmem : taskId ∈ tasks.map (fun t => t.id)) :
    (deleteGoalTask tasks taskId).Sublist tasks ∧
    (deleteGoalTask tasks taskId).length + 1 = tasks.length ∧
    (∀ t ∈ tasks, t.id ≠ taskId → t ∈ deleteGoalTask tasks taskId) ∧
    (∀ t ∈ deleteGoalTask tasks taskId, t ∈ tasks ∧ t.id ≠ taskId) := by
  refine ⟨List.filter_sublist tasks, deleteGoalTask_length taskId tasks hnd hmem,
    ?_, ?_⟩
  · intro t ht hne
    unfold deleteGoalTask
    rw [List.mem_filter]
    exact ⟨ht, by simp [hne]⟩
  · intro t ht
    unfold deleteGoalTask at ht
    rw [List.mem_filter] at ht
    refine ⟨ht.1, ?_⟩
    have := ht.2
    simp only [Bool.not_eq_true', beq_eq_false_iff_ne, ne_eq] at this
    exact this

/-- Witness for C9 at a concrete store. -/
theorem deleteGoalTask_removes_exactly_one_witness :
    (deleteGoalTask [⟨1, 1, "a", 0, 0⟩, ⟨2, 1, "b", 1, 1⟩] 1).Sublist
      [⟨1, 1, "a", 0, 0⟩, ⟨2, 1, "b", 1, 1⟩] ∧
    (deleteGoalTask [⟨1, 1, "a", 0, 0⟩, ⟨2, 1, "b", 1, 1⟩] 1).length + 1 =
      ([⟨1, 1, "a", 0, 0⟩, ⟨2, 1, "b", 1, 1⟩] : List GoalTask).length ∧
    (∀ t ∈ ([⟨1, 1, "a", 0, 0⟩, ⟨2, 1, "b", 1, 1⟩] : List GoalTask), t.id ≠ 1 →
      t ∈ deleteGoalTask [⟨1, 1, "a", 0, 0⟩, ⟨2, 1, "b", 1, 1⟩] 1) ∧
    (∀ t ∈ deleteGoalTask [⟨1, 1, "a", 0, 0⟩, ⟨2, 1, "b", 1, 1⟩] 1,
      t ∈ ([⟨1, 1, "a", 0, 0⟩, ⟨2, 1, "b", 1, 1⟩] : List GoalTask) ∧ t.id ≠ 1) :=
  deleteGoalTask_removes_exactly_one [⟨1, 1, "a", 0, 0⟩, ⟨2, 1, "b", 1, 1⟩] 1
    (by decide) (by decide)

theorem toggleFlag_invol (c : Int) (h : c = 0 ∨ c = 1) :
    toggleFlag (toggleFlag c) = c := by
  rcases h with h | h <;> simp [toggleFlag, h]

theorem toggleGoalTask_invol (tasks : List GoalTask) (taskId : Nat)
    (hb : ∀ t ∈ tasks, t.completed = 0 ∨ t.completed = 1) :
    toggleGoalTask (toggleGoalTask tasks taskId) taskId = tasks := by
  unfold toggleGoalTask
  rw [List.map_map]
  conv_rhs => rw [← List.map_id tasks]
  apply List.map_congr_left
  intro t ht
  simp only [Function.comp_apply]
  by_cases hid : (t.id == taskId) = true
  · rw [if_pos hid]
    rw [if_pos hid]
    have hc : toggleFlag (toggleFlag t.completed) = t.completed :=
      toggleFlag_invol t.completed (hb t ht)
    rw [hc]
    rfl
  · rw [if_neg hid, if_neg hid]
    rfl

theorem toggleDailyTask_invol (tasks : List DailyTask) (taskId : Nat)
    (hb : ∀ t ∈ tasks, t.completed = 0 ∨ t.completed = 1) :
    toggleDailyTask (toggleDailyTask tasks taskId) taskId = tasks := by
  unfold toggleDailyTask
  rw [List.map_map]
  conv_rhs => rw [← List.map_id tasks]
  apply List.map_congr_left
  intro t ht
  simp only [Function.comp_apply]
  by_cases hid : (t.id == taskId) = true
  · rw [if_pos hid, if_pos hid,
      toggleFlag_invol t.completed (hb t ht)]
    rfl
  · rw [if_neg hid, if_neg hid]
    rfl

theorem toggleTracker_invol (trackers : List Tracker) (trackerId : Nat)
    (hb : ∀ t ∈ trackers, t.active = 0 ∨ t.active = 1) :
    toggleTracker (toggleTracker trackers trackerId) trackerId = trackers := by
  unfold toggleTracker
  rw [List.map_map]
  conv_rhs => rw [← List.map_id trackers]
  apply List.map_congr_left
  intro t ht
  simp only [Function.comp_apply]
  by_cases hid : (t.id == trackerId) = true
  · rw [if_pos hid, if_pos hid,
      toggleFlag_invol t.active (hb t ht)]
    rfl
  · rw [if_neg hid, if_neg hid]
    rfl

/-- C10: each toggle handler is an involution on its flag and touches
nothing else: toggling twice restores the store for all three handlers,
and a single toggle keeps every non-flag field and the row order intact
(stated via the flag-erasing projections), keeps rows with other ids
untouched, and merely flips the flag of the matching rows. -/
theorem toggles_involutive_and_frame
    (goalTasks : List GoalTask) (dailyTasks : List DailyTask)
    (trackers : List Tracker) (gid did tid : Nat)
    (hg : ∀ t ∈ goalTasks, t.completed = 0 ∨ t.completed = 1)
    (hd : ∀ t ∈ dailyTasks, t.completed = 0 ∨ t.completed = 1)
    (ht : ∀ t ∈ trackers, t.active = 0 ∨ t.active = 1) :
    toggleGoalTask (toggleGoalTask goalTasks gid) gid = goalTasks ∧
    toggleDailyTask (toggleDailyTask dailyTasks did) did = dailyTasks ∧
    toggleTracker (toggleTracker trackers tid) tid = trackers ∧
    ((toggleGoalTask goalTasks gid).map
        (fun t => (t.id, t.goalId, t.title, t.sortOrder)) =
      goalTasks.map (fun t => (t.id, t.goalId, t.title, t.sortOrder))) ∧
    ((toggleDailyTask dailyTasks did).map
        (fun t => (t.id, t.title, t.date, t.checkInId)) =
      dailyTasks.map (fun t => (t.id, t.title, t.date, t.checkInId))) ∧
    ((toggleTracker trackers tid).map
        (fun t => (t.id, t.name, t.unit, t.ttype, t.sortOrder)) =
      trackers.map (fun t => (t.id, t.name, t.unit, t.ttype, t.sortOrder))) ∧
    (∀ t ∈ goalTasks, t.id ≠ gid → t ∈ toggleGoalTask goalTasks gid) ∧
    (∀ t ∈ dailyTasks, t.id ≠ did → t ∈ toggleDailyTask dailyTasks did) ∧
    (∀ t ∈ trackers, t.id ≠ tid → t ∈ toggleTracker trackers tid) ∧
    (∀ t ∈ goalTasks, t.id = gid →
      ({ t with completed := toggleFlag t.completed } : GoalTask) ∈
        toggleGoalTask goalTasks gid) ∧
    (∀ t ∈ trackers, t.id = tid →
      ({ t with active := toggleFlag t.active } : Tracker) ∈
        toggleTracker trackers tid) := by
  refine ⟨toggleGoalTask_invol goalTasks gid hg,
    toggleDailyTask_invol dailyTasks did hd,
    toggleTracker_invol trackers tid ht, ?_, ?_, ?_, ?_, ?_, ?_, ?_, ?_⟩
  · unfold toggleGoalTask
    rw [List.map_map]
    apply List.map_congr_left
    intro t _
    simp only [Function.comp_apply]
    split
    · rfl
    · rfl
  · unfold toggleDailyTask
    rw [List.map_map]
    apply List.map_congr_left
    intro t _
    simp only [Function.comp_apply]
    split
    · rfl
    · rfl
  · unfold toggleTracker
    rw [List.map_map]
    apply List.map_congr_left
    intro t _
    simp only [Function.comp_apply]
    split
    · rfl
    · rfl
  · intro t htm hne
    unfold toggleGoalTask
    have : (if t.id == gid then
        ({ t with completed := toggleFlag t.completed } : GoalTask) else t) = t :=
      if_neg (by simp [hne])
    exact List.mem_map.mpr ⟨t, htm, this⟩
  · intro t htm hne
    unfold toggleDailyTask
    have : (if t.id == did then
        ({ t with completed := toggleFlag t.completed } : DailyTask) else t) = t :=
      if_neg (by simp [hne])
    exact List.mem_map.mpr ⟨t, htm, this⟩
  · intro t htm hne
    unfold toggleTracker
    have : (if t.id == tid then
        ({ t with active := toggleFlag t.active } : Tracker) else t) = t :=
      if_neg (by simp [hne])
    exact List.mem_map.mpr ⟨t, htm, this⟩
  · intro t htm heq
    unfold toggleGoalTask
    exact List.mem_map.mpr ⟨t, htm, if_pos (by simp [heq])⟩
  · intro t htm heq
    unfold toggleTracker
    exact List.mem_map.mpr ⟨t, htm, if_pos (by simp [heq])⟩

/-- Witness for C10 at concrete stores. -/
theorem toggles_involutive_and_frame_witness :
    toggleGoalTask (toggleGoalTask [⟨1, 1, "a", 0, 0⟩] 1) 1 = [⟨1, 1, "a", 0, 0⟩] ∧
    toggleDailyTask (toggleDailyTask [⟨1, "d", "2024-01-10", 1, none⟩] 1) 1 =
      [⟨1, "d", "2024-01-10", 1, none⟩] ∧
    toggleTracker (toggleTracker [⟨1, "w", "", "number", 1, 0⟩] 2) 2 =
      [⟨1, "w", "", "number", 1, 0⟩] ∧
    ((toggleGoalTask [⟨1, 1, "a", 0, 0⟩] 1).map
        (fun t => (t.id, t.goalId, t.title, t.sortOrder)) =
      ([⟨1, 1, "a", 0, 0⟩] : List GoalTask).map
        (fun t => (t.id, t.goalId, t.title, t.sortOrder))) ∧
    ((toggleDailyTask [⟨1, "d", "2024-01-10", 1, none⟩] 1).map
        (fun t => (t.id, t.title, t.date, t.checkInId)) =
      ([⟨1, "d", "2024-01-10", 1, none⟩] : List DailyTask).map
        (fun t => (t.id, t.title, t.date, t.checkInId))) ∧
    ((toggleTracker [⟨1, "w", "", "number", 1, 0⟩] 2).map
        (fun t => (t.id, t.name, t.unit, t.ttype, t.sortOrder)) =
      ([⟨1, "w", "", "number", 1, 0⟩] : List Tracker).map
        (fun t => (t.id, t.name, t.unit, t.ttype, t.sortOrder))) ∧
    (∀ t ∈ ([⟨1, 1, "a", 0, 0⟩] : List GoalTask), t.id ≠ 1 →
      t ∈ toggleGoalTask [⟨1, 1, "a", 0, 0⟩] 1) ∧
    (∀ t ∈ ([⟨1, "d", "2024-01-10", 1, none⟩] : List DailyTask), t.id ≠ 1 →
      t ∈ toggleDailyTask [⟨1, "d", "2024-01-10", 1, none⟩] 1) ∧
    (∀ t ∈ ([⟨1, "w", "", "number", 1, 0⟩] : List Tracker), t.id ≠ 2 →
      t ∈ toggleTracker [⟨1, "w", "", "number", 1, 0⟩] 2) ∧
    (∀ t ∈ ([⟨1, 1, "a", 0, 0⟩] : List GoalTask), t.id = 1 →
      ({ t with completed := toggleFlag t.completed } : GoalTask) ∈
        toggleGoalTask [⟨1, 1, "a", 0, 0⟩] 1) ∧
    (∀ t ∈ ([⟨1, "w", "", "number", 1, 0⟩] : List Tracker), t.id = 2 →
      ({ t with active := toggleFlag t.active } : Tracker) ∈
        toggleTracker [⟨1, "w", "", "number", 1, 0⟩] 2) :=
  toggles_involutive_and_frame [⟨1, 1, "a", 0, 0⟩] [⟨1, "d", "2024-01-10", 1, none⟩]
    [⟨1, "w", "", "number", 1, 0⟩] 1 1 2 (by decide) (by decide) (by decide)

theorem le_foldr_max (ids : List Nat) : ∀ i ∈ ids, i ≤ ids.foldr max 0 := by
  induction ids with
  | nil => intro i h; simp at h
  | cons a as ih =>
    intro i h
    rcases List.mem_cons.mp h with h | h
    · subst h
      simp only [List.foldr_cons]
      exact Nat.le_max_left _ _
    · simp only [List.foldr_cons]
      exact (ih i h).trans (Nat.le_max_right _ _)

theorem nextRowId_fresh (ids : List Nat) : nextRowId ids ∉ ids := by
  intro hmem
  have := le_foldr_max ids (nextRowId ids) hmem
  unfold nextRowId at this
  omega

theorem wr_filter_updMap_of_no_match (y w : Int) (f : WeekReviewForm)
    (exId : Nat) :
    ∀ rs : List WeekReview, (∀ x ∈ rs, ¬(x.year = y ∧ x.week = w)) →
      (rs.map (fun r => if r.id == exId then applyForm r f else r)).filter
        (fun r => r.year == y && r.week == w) = [] := by
  intro rs
  induction rs with
  | nil => intro _; rfl
  | cons r rs2 ih =>
    intro h
    have hcond : ¬(r.year == y && r.week == w) = true := by
      intro hb
      simp only [Bool.and_eq_true, beq_iff_eq] at hb
      exact h r (by simp) hb
    simp only [List.map_cons, List.filter_cons]
    have hhead : ¬((if r.id == exId then applyForm r f else r).year == y &&
        (if r.id == exId then applyForm r f else r).week == w) = true := by
      split
      · exact hcond
      · exact hcond
    rw [if_neg hhead]
    exact ih (fun x hx => h x (by simp [hx]))

theorem wr_filter_updMap_eq (y w : Int) (f : WeekReviewForm) :
    ∀ rows : List WeekReview, ∀ ex, ex ∈ rows → ex.year = y → ex.week = w →
      (rows.map (fun r => r.id)).Nodup →
      (rows.map (fun r => (r.year, r.week))).Nodup →
      (rows.map (fun r => if r.id == ex.id then applyForm r f else r)).filter
        (fun r => r.year == y && r.week == w) = [applyForm ex f] := by
  intro rows
  induction rows with
  | nil => intro ex hex; exact absurd hex (by simp)
  | cons r rs ih =>
    intro ex hex hy hw hid hkey
    simp only [List.map_cons, List.nodup_cons] at hid hkey
    rcases List.mem_cons.mp hex with hex1 | hex2
    · subst hex1
      simp only [List.map_cons, List.filter_cons]
      have hh : (if (ex.id == ex.id) = true then applyForm ex f else ex) =
          applyForm ex f := if_pos (by simp)
      rw [hh]
      have hkeyhead : ((applyForm ex f).year == y &&
          (applyForm ex f).week == w) = true := by
        simp only [applyForm, Bool.and_eq_true, beq_iff_eq]
        exact ⟨hy, hw⟩
      rw [if_pos hkeyhead]
      rw [wr_filter_updMap_of_no_match y w f ex.id rs ?_]
      intro x hx hxk
      apply hkey.1
      have : (x.year, x.week) = (ex.year, ex.week) := by
        rw [hxk.1, hxk.2, hy, hw]
      rw [← this]
      exact List.mem_map.mpr ⟨x, hx, rfl⟩
    · have hidne : ¬(r.id == ex.id) = true := by
        intro hb
        rw [beq_iff_eq] at hb
        exact hid.1 (hb ▸ List.mem_map.mpr ⟨ex, hex2, rfl⟩)
      have hkeyne : ¬(r.year == y && r.week == w) = true := by
        intro hb
        simp only [Bool.and_eq_true, beq_iff_eq] at hb
        apply hkey.1
        have : (r.year, r.week) = (ex.year, ex.week) := by
          rw [hb.1, hb.2, hy, hw]
        rw [this]
        exact List.mem_map.mpr ⟨ex, hex2, rfl⟩
      simp only [List.map_cons, List.filter_cons]
      rw [if_neg hidne, if_neg hkeyne]
      exact ih ex hex2 hy hw hid.2 hkey.2

theorem wr_updMap_preserves (rows : List WeekReview) (exId : Nat)
    (f : WeekReviewForm) :
    ((rows.map (fun r => if r.id == exId then applyForm r f else r)).map
      (fun r => r.id) = rows.map (fun r => r.id)) ∧
    ((rows.map (fun r => if r.id == exId then applyForm r f else r)).map
      (fun r => (r.year, r.week)) = rows.map (fun r => (r.year, r.week))) := by
  constructor
  · rw [List.map_map]
    apply List.map_congr_left
    intro r _
    simp only [Function.comp_apply]
    split
    · rfl
    · rfl
  · rw [List.map_map]
    apply List.map_congr_left
    intro r _
    simp only [Function.comp_apply]
    split
    · rfl
    · rfl

/-- One `save_weekreview` call: the resulting store has exactly one row
for the saved `(year, week)` key, carrying the submitted fields; both
uniqueness invariants survive; the store grows only when the key was
absent. -/
theorem saveWeekreview_spec (rows : List WeekReview) (y w : Int)
    (f : WeekReviewForm)
    (hid : (rows.map (fun r => r.id)).Nodup)
    (hkey : (rows.map (fun r => (r.year, r.week))).Nodup) :
    (∃ i, (saveWeekreview rows y w f).filter
      (fun r => r.year == y && r.week == w) =
      [⟨i, y, w, f.score, f.wentWell, f.improve, f.onTrack, f.priorities⟩]) ∧
    ((saveWeekreview rows y w f).map (fun r => r.id)).Nodup ∧
    ((saveWeekreview rows y w f).map (fun r => (r.year, r.week))).Nodup ∧
    ((rows.find? (fun r => r.year == y && r.week == w)).isSome →
      (saveWeekreview rows y w f).length = rows.length) := by
  unfold saveWeekreview
  cases hfind : rows.find? (fun r => r.year == y && r.week == w) with
  | some ex =>
    have hex : ex ∈ rows := List.mem_of_find?_eq_some hfind
    have hp := List.find?_some hfind
    simp only [Bool.and_eq_true, beq_iff_eq] at hp
    obtain ⟨hy, hw⟩ := hp
    have hfe := wr_filter_updMap_eq y w f rows ex hex hy hw hid hkey
    have hpres := wr_updMap_preserves rows ex.id f
    refine ⟨⟨ex.id, ?_⟩, ?_, ?_, ?_⟩
    · rw [hfe]
      have : applyForm ex f =
          ⟨ex.id, y, w, f.score, f.wentWell, f.improve, f.onTrack, f.priorities⟩ := by
        unfold applyForm
        rw [← hy, ← hw]
      rw [this]
    · rw [hpres.1]; exact hid
    · rw [hpres.2]; exact hkey
    · intro _; exact List.length_map rows _
  | none =>
    have hnone := List.find?_eq_none.mp hfind
    refine ⟨⟨nextRowId (rows.map (fun r => r.id)), ?_⟩, ?_, ?_, ?_⟩
    · rw [List.filter_append]
      have h1 : rows.filter (fun r => r.year == y && r.week == w) = [] := by
        rw [List.filter_eq_nil_iff]
        exact fun r hr => by simpa using hnone r hr
      rw [h1]
      simp
    · rw [List.map_append, List.nodup_append]
      refine ⟨hid, by simp, ?_⟩
      intro i hi hi2
      simp only [List.map_cons, List.map_nil, List.mem_singleton] at hi2
      subst hi2
      exact nextRowId_fresh (rows.map (fun r => r.id)) hi
    · rw [List.map_append, List.nodup_append]
      refine ⟨hkey, by simp, ?_⟩
      intro k hk hk2
      simp only [List.map_cons, List.map_nil, List.mem_singleton] at hk2
      subst hk2
      obtain ⟨r, hr, hkr⟩ := List.mem_map.mp hk
      have h1 : r.year = y := congrArg Prod.fst hkr
      have h2 : r.week = w := congrArg Prod.snd hkr
      exact hnone r hr (by simp [h1, h2])
    · intro hs
      simp at hs

/-- C6: saving a week review twice for the same `(year, week)` leaves
exactly one row for that pair, whose fields are those of the second
save; the second call updates the row in place — the store does not grow
— and the one-row-per-(year, week) invariant is preserved. -/
theorem saveWeekreview_upsert_twice (rows : List WeekReview) (y w : Int)
    (f1 f2 : WeekReviewForm)
    (hid : (rows.map (fun r => r.id)).Nodup)
    (hkey : (rows.map (fun r => (r.year, r.week))).Nodup) :
    (saveWeekreview (saveWeekreview rows y w f1) y w f2).length =
      (saveWeekreview rows y w f1).length ∧
    (∃ i, (saveWeekreview (saveWeekreview rows y w f1) y w f2).filter
      (fun r => r.year == y && r.week == w) =
      [⟨i, y, w, f2.score, f2.wentWell, f2.improve, f2.onTrack, f2.priorities⟩]) ∧
    ((saveWeekreview (saveWeekreview rows y w f1) y w f2).map
      (fun r => (r.year, r.week))).Nodup := by
  obtain ⟨⟨i1, hf1⟩, hid1, hkey1, _⟩ := saveWeekreview_spec rows y w f1 hid hkey
  obtain ⟨he, hnd1, hnd2, hlen⟩ :=
    saveWeekreview_spec (saveWeekreview rows y w f1) y w f2 hid1 hkey1
  refine ⟨?_, he, hnd2⟩
  apply hlen
  cases hfind : (saveWeekreview rows y w f1).find?
      (fun r => r.year == y && r.week == w) with
  | some ex => rfl
  | none =>
    have hnone := List.find?_eq_none.mp hfind
    have : (⟨i1, y, w, f1.score, f1.wentWell, f1.improve, f1.onTrack,
        f1.priorities⟩ : WeekReview) ∈ (saveWeekreview rows y w f1).filter
        (fun r => r.year == y && r.week == w) := by
      rw [hf1]; simp
    rw [List.mem_filter] at this
    exact absurd this.2 (hnone _ this.1)

/-- Witness for C6 at a concrete store, key and forms. -/
theorem saveWeekreview_upsert_twice_witness :
    (saveWeekreview (saveWeekreview [⟨1, 2023, 5, none, "", "", none, ""⟩]
        2024 2 ⟨some 6, "a", "b", none, "c"⟩) 2024 2
        ⟨some 7, "x", "y", some "on", "z"⟩).length =
      (saveWeekreview [⟨1, 2023, 5, none, "", "", none, ""⟩] 2024 2
        ⟨some 6, "a", "b", none, "c"⟩).length ∧
    (∃ i, (saveWeekreview (saveWeekreview [⟨1, 2023, 5, none, "", "", none, ""⟩]
        2024 2 ⟨some 6, "a", "b", none, "c"⟩) 2024 2
        ⟨some 7, "x", "y", some "on", "z"⟩).filter
      (fun r => r.year == 2024 && r.week == 2) =
      [⟨i, 2024, 2, some 7, "x", "y", some "on", "z"⟩]) ∧
    ((saveWeekreview (saveWeekreview [⟨1, 2023, 5, none, "", "", none, ""⟩]
        2024 2 ⟨some 6, "a", "b", none, "c"⟩) 2024 2
        ⟨some 7, "x", "y", some "on", "z"⟩).map
      (fun r => (r.year, r.week))).Nodup :=
  saveWeekreview_upsert_twice [⟨1, 2023, 5, none, "", "", none, ""⟩] 2024 2
    ⟨some 6, "a", "b", none, "c"⟩ ⟨some 7, "x", "y", some "on", "z"⟩
    (by decide) (by decide)

theorem chLeads_append (p s : List Char) : chLeads p (p ++ s) = true := by
  induction p with
  | nil => rfl
  | cons a as ih => simp [chLeads, ih]

theorem append_ne_of_chLeads_false (p t : String)
    (h : chLeads p.data t.data = false) : ∀ s : String, p ++ s ≠ t := by
  intro s he
  have h2 := chLeads_append p.data s.data
  have hd : p.data ++ s.data = t.data := by rw [← String.data_append, he]
  rw [hd, h] at h2
  exact Bool.false_ne_true h2

theorem mem_if_singleton {p x : String} {c : Prop} [Decidable c]
    (h : p ∈ (if c then [x] else [])) : p = x := by
  split at h
  · simpa using h
  · simp at h

theorem mem_if_singleton2 {p x : String} {c : Prop} [Decidable c]
    (h : p ∈ (if c then [] else [x])) : p = x := by
  split at h
  · simp at h
  · simpa using h

theorem checkinLines_shape : ∀ (cur : Option String) (rows : List AnswerRow),
    ∀ p ∈ checkinLines cur rows, partShape p := by
  intro cur rows
  induction rows generalizing cur with
  | nil => intro p hp; simp [checkinLines] at hp
  | cons r rs ih =>
    intro p hp
    unfold checkinLines at hp
    split at hp
    · rcases List.mem_cons.mp hp with h | h
      · exact Or.inr (Or.inl ⟨_, h⟩)
      · exact ih cur p h
    · rcases List.mem_cons.mp hp with h | h
      · exact Or.inl ⟨_, h⟩
      · rcases List.mem_cons.mp h with h2 | h2
        · exact Or.inr (Or.inl ⟨_, h2⟩)
        · exact ih (some r.date) p h2

theorem checkinParts_mem (rows : List AnswerRow) : ∀ p ∈ checkinParts rows,
    p = "## Recente check-ins" ∨ partShape p := by
  intro p hp
  unfold checkinParts at hp
  split at hp
  · simp at hp
  · rcases List.mem_cons.mp hp with h | h
    · exact Or.inl h
    · exact Or.inr (checkinLines_shape none rows p h)

theorem reviewLines_shape (r : WeekReview) : ∀ p ∈ reviewLines r, partShape p := by
  intro p hp
  unfold reviewLines at hp
  rcases List.mem_cons.mp hp with h | h
  · exact Or.inl ⟨_, h⟩
  · rcases List.mem_append.mp h with h | h
    · rcases List.mem_append.mp h with h | h
      · rcases List.mem_append.mp h with h | h
        · exact Or.inr (Or.inl ⟨_, mem_if_singleton h⟩)
        · exact Or.inr (Or.inl ⟨_, mem_if_singleton2 h⟩)
      · exact Or.inr (Or.inl ⟨_, mem_if_singleton2 h⟩)
    · exact Or.inr (Or.inl ⟨_, mem_if_singleton2 h⟩)

theorem reviewParts_mem (reviews : List WeekReview) : ∀ p ∈ reviewParts reviews,
    p = "\n## Recente weekreviews" ∨ partShape p := by
  intro p hp
  unfold reviewParts at hp
  split at hp
  · simp at hp
  · rcases List.mem_cons.mp hp with h | h
    · exact Or.inl h
    · obtain ⟨l, hl, hpl⟩ := List.mem_flatten.mp h
      obtain ⟨r, _, hrl⟩ := List.mem_map.mp hl
      exact Or.inr (reviewLines_shape r p (hrl ▸ hpl))

theorem goalLines_shape (db : Store) (g : Goal) : ∀ p ∈ goalLines db g,
    partShape p := by
  intro p hp
  unfold goalLines at hp
  rcases List.mem_cons.mp hp with h | h
  · exact Or.inr (Or.inl ⟨_, h⟩)
  · rcases List.mem_append.mp h with h | h
    · exact Or.inr (Or.inr ⟨_, mem_if_singleton2 h⟩)
    · obtain ⟨t, _, htl⟩ := List.mem_map.mp h
      exact Or.inr (Or.inr ⟨_, htl.symm⟩)

theorem goalParts_mem (db : Store) (goals : List Goal) : ∀ p ∈ goalParts db goals,
    p = "\n## Actieve doelen" ∨ partShape p := by
  intro p hp
  unfold goalParts at hp
  split at hp
  · simp at hp
  · rcases List.mem_cons.mp hp with h | h
    · exact Or.inl h
    · obtain ⟨l, hl, hpl⟩ := List.mem_flatten.mp h
      obtain ⟨g, _, hgl⟩ := List.mem_map.mp hl
      exact Or.inr (goalLines_shape db g p (hgl ▸ hpl))

theorem trackerLines_shape : ∀ (cur : Option String) (rows : List TrackRow),
    ∀ p ∈ trackerLines cur rows, partShape p := by
  intro cur rows
  induction rows generalizing cur with
  | nil => intro p hp; simp [trackerLines] at hp
  | cons r rs ih =>
    intro p hp
    unfold trackerLines at hp
    split at hp
    · rcases List.mem_cons.mp hp with h | h
      · exact Or.inr (Or.inl ⟨_, h⟩)
      · exact ih cur p h
    · rcases List.mem_cons.mp hp with h | h
      · exact Or.inl ⟨_, h⟩
      · rcases List.mem_cons.mp h with h2 | h2
        · exact Or.inr (Or.inl ⟨_, h2⟩)
        · exact ih (some (trackerDisplayName r)) p h2

theorem trackerParts_mem (rows : List TrackRow) : ∀ p ∈ trackerParts rows,
    p = "\n## Tracker data" ∨ partShape p := by
  intro p hp
  unfold trackerParts at hp
  split at hp
  · simp at hp
  · rcases List.mem_cons.mp hp with h | h
    · exact Or.inl h
    · exact Or.inr (trackerLines_shape none rows p h)

theorem partShape_ne (p t : String)
    (h1 : chLeads "\n### ".data t.data = false)
    (h2 : chLeads "- ".data t.data = false)
    (h3 : chLeads "  ".data t.data = false)
    (hs : partShape p) : p ≠ t := by
  rcases hs with ⟨s, he⟩ | ⟨s, he⟩ | ⟨s, he⟩ <;> subst he
  · exact append_ne_of_chLeads_false _ t h1 s
  · exact append_ne_of_chLeads_false _ t h2 s
  · exact append_ne_of_chLeads_false _ t h3 s

theorem checkinParts_eq_nil_iff (rows : List AnswerRow) :
    checkinParts rows = [] ↔ rows = [] := by
  unfold checkinParts
  rcases rows with _ | ⟨r, rs⟩
  · simp
  · simp [List.isEmpty]

theorem reviewParts_eq_nil_iff (reviews : List WeekReview) :
    reviewParts reviews = [] ↔ reviews = [] := by
  unfold reviewParts
  rcases reviews with _ | ⟨r, rs⟩
  · simp
  · simp [List.isEmpty]

theorem goalParts_eq_nil_iff (db : Store) (goals : List Goal) :
    goalParts db goals = [] ↔ goals = [] := by
  unfold goalParts
  rcases goals with _ | ⟨g, gs⟩
  · simp
  · simp [List.isEmpty]

theorem trackerParts_eq_nil_iff (rows : List TrackRow) :
    trackerParts rows = [] ↔ rows = [] := by
  unfold trackerParts
  rcases rows with _ | ⟨r, rs⟩
  · simp
  · simp [List.isEmpty]

theorem reviewsQuery_eq_nil_iff (db : Store) :
    reviewsQuery db = [] ↔ db.weekReviews = [] := by
  unfold reviewsQuery
  constructor
  · intro h
    rcases List.take_eq_nil_iff.mp h with h4 | h0
    · simp at h4
    · have hp := List.mergeSort_perm db.weekReviews revLe
      rw [h0] at hp
      exact (List.perm_nil.mp hp.symm)
  · intro h
    rw [h, List.mergeSort_nil]
    rfl

theorem joinLines_eq_head_append (p : String) (ps : List String) :
    ∃ s : String, joinLines (p :: ps) = p ++ s := by
  cases ps with
  | nil => exact ⟨"", (String.append_empty p).symm⟩
  | cons q qs =>
    refine ⟨"\n" ++ joinLines (q :: qs), ?_⟩
    show joinLines (p :: q :: qs) = p ++ ("\n" ++ joinLines (q :: qs))
    rw [joinLines, String.append_assoc]

theorem buildParts_mem (db : Store) (since : String) : ∀ p ∈ buildParts db since,
    p = "## Recente check-ins" ∨ p = "\n## Recente weekreviews" ∨
    p = "\n## Actieve doelen" ∨ p = "\n## Tracker data" ∨ partShape p := by
  intro p hp
  unfold buildParts at hp
  rcases List.mem_append.mp hp with h | h
  · rcases List.mem_append.mp h with h | h
    · rcases List.mem_append.mp h with h | h
      · rcases checkinParts_mem _ p h with h | h
        · exact Or.inl h
        · exact Or.inr (Or.inr (Or.inr (Or.inr h)))
      · rcases reviewParts_mem _ p h with h | h
        · exact Or.inr (Or.inl h)
        · exact Or.inr (Or.inr (Or.inr (Or.inr h)))
    · rcases goalParts_mem _ _ p h with h | h
      · exact Or.inr (Or.inr (Or.inl h))
      · exact Or.inr (Or.inr (Or.inr (Or.inr h)))
  · rcases trackerParts_mem _ p h with h | h
    · exact Or.inr (Or.inr (Or.inr (Or.inl h)))
    · exact Or.inr (Or.inr (Or.inr (Or.inr h)))

theorem revLe_iff (a b : WeekReview) : revLe a b = true ↔
    (b.year < a.year ∨ (a.year = b.year ∧ b.week ≤ a.week)) := by
  unfold revLe
  by_cases h : a.year = b.year
  · rw [if_pos (beq_iff_eq.mpr h)]
    simp only [decide_eq_true_eq]
    omega
  · rw [if_neg (fun hb => h (beq_iff_eq.mp hb))]
    simp only [decide_eq_true_eq]
    omega

theorem revLe_trans : ∀ a b c : WeekReview,
    revLe a b = true → revLe b c = true → revLe a c = true := by
  intro a b c hab hbc
  rw [revLe_iff] at *
  omega

theorem revLe_total : ∀ a b : WeekReview, (revLe a b || revLe b a) = true := by
  intro a b
  rw [Bool.or_eq_true, revLe_iff, revLe_iff]
  omega

theorem not_partShape_of (t : String)
    (h1 : chLeads "\n### ".data t.data = false)
    (h2 : chLeads "- ".data t.data = false)
    (h3 : chLeads "  ".data t.data = false) : ¬ partShape t := by
  rintro (⟨s, hs⟩ | ⟨s, hs⟩ | ⟨s, hs⟩)
  · exact append_ne_of_chLeads_false _ t h1 s hs.symm
  · exact append_ne_of_chLeads_false _ t h2 s hs.symm
  · exact append_ne_of_chLeads_false _ t h3 s hs.symm

theorem checkinParts_cons (rows : List AnswerRow) (h : rows ≠ []) :
    checkinParts rows = "## Recente check-ins" :: checkinLines none rows := by
  unfold checkinParts
  rw [if_neg (by simp [List.isEmpty_iff, h])]

theorem reviewParts_cons (reviews : List WeekReview) (h : reviews ≠ []) :
    reviewParts reviews =
      "\n## Recente weekreviews" :: (reviews.map reviewLines).flatten := by
  unfold reviewParts
  rw [if_neg (by simp [List.isEmpty_iff, h])]

theorem goalParts_cons (db : Store) (goals : List Goal) (h : goals ≠ []) :
    goalParts db goals =
      "\n## Actieve doelen" :: (goals.map (goalLines db)).flatten := by
  unfold goalParts
  rw [if_neg (by simp [List.isEmpty_iff, h])]

theorem trackerParts_cons (rows : List TrackRow) (h : rows ≠ []) :
    trackerParts rows = "\n## Tracker data" :: trackerLines none rows := by
  unfold trackerParts
  rw [if_neg (by simp [List.isEmpty_iff, h])]

theorem buildParts_nil_iff (db : Store) (since : String) :
    buildParts db since = [] ↔
      (answersQuery db since = [] ∧ db.weekReviews = [] ∧
        activeGoalsQuery db = [] ∧ trackersQuery db since = []) := by
  unfold buildParts
  constructor
  · intro h
    obtain ⟨h123, h4⟩ := List.append_eq_nil.mp h
    obtain ⟨h12, h3⟩ := List.append_eq_nil.mp h123
    obtain ⟨h1, h2⟩ := List.append_eq_nil.mp h12
    exact ⟨(checkinParts_eq_nil_iff _).mp h1,
      (reviewsQuery_eq_nil_iff db).mp ((reviewParts_eq_nil_iff _).mp h2),
      (goalParts_eq_nil_iff _ _).mp h3, (trackerParts_eq_nil_iff _).mp h4⟩
  · rintro ⟨h1, h2, h3, h4⟩
    rw [(checkinParts_eq_nil_iff _).mpr h1,
      (reviewParts_eq_nil_iff _).mpr ((reviewsQuery_eq_nil_iff db).mpr h2),
      (goalParts_eq_nil_iff _ _).mpr h3, (trackerParts_eq_nil_iff _).mpr h4]
    rfl

theorem buildContext_head (db : Store) (since : String) (p : String)
    (ps : List String) (h : buildParts db since = p :: ps) :
    ∃ s, buildContext db since = p ++ s := by
  unfold buildContext
  rw [h]
  rw [if_neg (by simp)]
  exact joinLines_eq_head_append p ps

/-- C7: `_build_context` returns the fixed placeholder exactly when all
four data sets are empty; otherwise it returns nonempty text; each
section header appears in the parts exactly when its data set is
nonempty (empty sections are omitted); and the output depends on at most
the 4 most recent week reviews, ordered by year then week number
descending. -/
theorem buildContext_spec (db : Store) (since : String) :
    (buildContext db since = "Nog geen data beschikbaar." ↔
      (answersQuery db since = [] ∧ db.weekReviews = [] ∧
        activeGoalsQuery db = [] ∧ trackersQuery db since = [])) ∧
    (buildContext db since ≠ "Nog geen data beschikbaar." →
      buildContext db since ≠ "") ∧
    ("## Recente check-ins" ∈ buildParts db since ↔ answersQuery db since ≠ []) ∧
    ("\n## Recente weekreviews" ∈ buildParts db since ↔ db.weekReviews ≠ []) ∧
    ("\n## Actieve doelen" ∈ buildParts db since ↔ activeGoalsQuery db ≠ []) ∧
    ("\n## Tracker data" ∈ buildParts db since ↔ trackersQuery db since ≠ []) ∧
    (reviewsQuery db).length ≤ 4 ∧
    buildContext db since =
      buildContext { db with weekReviews := reviewsQuery db } since := by
  have hlen4 : (reviewsQuery db).length ≤ 4 := by
    unfold reviewsQuery
    rw [List.length_take]
    exact min_le_left _ _
  have hcons : ∀ p ps, buildParts db since = p :: ps → ∀ t : String,
      chLeads "## Recente check-ins".data t.data = false →
      chLeads "\n## Recente weekreviews".data t.data = false →
      chLeads "\n## Actieve doelen".data t.data = false →
      chLeads "\n## Tracker data".data t.data = false →
      chLeads "\n### ".data t.data = false →
      chLeads "- ".data t.data = false →
      chLeads "  ".data t.data = false →
      buildContext db since ≠ t := by
    intro p ps hpp t hc1 hc2 hc3 hc4 hs1 hs2 hs3
    obtain ⟨s, hcs⟩ := buildContext_head db since p ps hpp
    rw [hcs]
    have hp : p ∈ buildParts db since := by rw [hpp]; exact List.mem_cons_self p ps
    rcases buildParts_mem db since p hp with h | h | h | h | h
    · subst h; exact append_ne_of_chLeads_false _ t hc1 s
    · subst h; exact append_ne_of_chLeads_false _ t hc2 s
    · subst h; exact append_ne_of_chLeads_false _ t hc3 s
    · subst h; exact append_ne_of_chLeads_false _ t hc4 s
    · rcases h with ⟨u, hu⟩ | ⟨u, hu⟩ | ⟨u, hu⟩ <;> subst hu <;>
        rw [String.append_assoc]
      · exact append_ne_of_chLeads_false _ t hs1 _
      · exact append_ne_of_chLeads_false _ t hs2 _
      · exact append_ne_of_chLeads_false _ t hs3 _
  have hsplit : buildParts db since = [] ∨
      ∃ p ps, buildParts db since = p :: ps := by
    rcases hx : buildParts db since with _ | ⟨p, ps⟩
    · exact Or.inl rfl
    · exact Or.inr ⟨p, ps, rfl⟩
  refine ⟨?_, ?_, ?_, ?_, ?_, ?_, hlen4, ?_⟩
  · constructor
    · intro h
      rcases hsplit with hnil | ⟨p, ps, hpp⟩
      · exact (buildParts_nil_iff db since).mp hnil
      · exact absurd h (hcons p ps hpp _ (by decide) (by decide) (by decide)
          (by decide) (by decide) (by decide) (by decide))
    · intro hq
      have hnil := (buildParts_nil_iff db since).mpr hq
      unfold buildContext
      rw [hnil]
      rfl
  · intro h
    rcases hsplit with hnil | ⟨p, ps, hpp⟩
    · exact absurd (by unfold buildContext; rw [hnil]; rfl) h
    · exact hcons p ps hpp "" (by decide) (by decide) (by decide) (by decide)
        (by decide) (by decide) (by decide)
  · constructor
    · intro hmem hq
      have h1 := (checkinParts_eq_nil_iff _).mpr hq
      unfold buildParts at hmem
      rw [h1] at hmem
      simp only [List.nil_append] at hmem
      rcases List.mem_append.mp hmem with hm | hm
      · rcases List.mem_append.mp hm with hm2 | hm2
        · rcases reviewParts_mem _ _ hm2 with he | he
          · exact absurd he (by decide)
          · exact not_partShape_of _ (by decide) (by decide) (by decide) he
        · rcases goalParts_mem _ _ _ hm2 with he | he
          · exact absurd he (by decide)
          · exact not_partShape_of _ (by decide) (by decide) (by decide) he
      · rcases trackerParts_mem _ _ hm with he | he
        · exact absurd he (by decide)
        · exact not_partShape_of _ (by decide) (by decide) (by decide) he
    · intro hq
      unfold buildParts
      rw [checkinParts_cons _ hq]
      simp
  · constructor
    · intro hmem hq
      have hrq : reviewsQuery db = [] := (reviewsQuery_eq_nil_iff db).mpr hq
      have h2 := (reviewParts_eq_nil_iff _).mpr hrq
      unfold buildParts at hmem
      rw [h2] at hmem
      simp only [List.append_nil] at hmem
      rcases List.mem_append.mp hmem with hm | hm
      · rcases List.mem_append.mp hm with hm2 | hm2
        · rcases checkinParts_mem _ _ hm2 with he | he
          · exact absurd he (by decide)
          · exact not_partShape_of _ (by decide) (by decide) (by decide) he
        · rcases goalParts_mem _ _ _ hm2 with he | he
          · exact absurd he (by decide)
          · exact not_partShape_of _ (by decide) (by decide) (by decide) he
      · rcases trackerParts_mem _ _ hm with he | he
        · exact absurd he (by decide)
        · exact not_partShape_of _ (by decide) (by decide) (by decide) he
    · intro hq
      have hrq : reviewsQuery db ≠ [] :=
        fun hx => hq ((reviewsQuery_eq_nil_iff db).mp hx)
      unfold buildParts
      rw [reviewParts_cons _ hrq]
      simp
  · constructor
    · intro hmem hq
      have h3 := (goalParts_eq_nil_iff db _).mpr hq
      unfold buildParts at hmem
      rw [h3] at hmem
      simp only [List.append_nil] at hmem
      rcases List.mem_append.mp hmem with hm | hm
      · rcases List.mem_append.mp hm with hm2 | hm2
        · rcases checkinParts_mem _ _ hm2 with he | he
          · exact absurd he (by decide)
          · exact not_partShape_of _ (by decide) (by decide) (by decide) he
        · rcases reviewParts_mem _ _ hm2 with he | he
          · exact absurd he (by decide)
          · exact not_partShape_of _ (by decide) (by decide) (by decide) he
      · rcases trackerParts_mem _ _ hm with he | he
        · exact absurd he (by decide)
        · exact not_partShape_of _ (by decide) (by decide) (by decide) he
    · intro hq
      unfold buildParts
      rw [goalParts_cons db _ hq]
      simp
  · constructor
    · intro hmem hq
      have h4 := (trackerParts_eq_nil_iff _).mpr hq
      unfold buildParts at hmem
      rw [h4] at hmem
      simp only [List.append_nil] at hmem
      rcases List.mem_append.mp hmem with hm | hm
      · rcases List.mem_append.mp hm with hm2 | hm2
        · rcases checkinParts_mem _ _ hm2 with he | he
          · exact absurd he (by decide)
          · exact not_partShape_of _ (by decide) (by decide) (by decide) he
        · rcases reviewParts_mem _ _ hm2 with he | he
          · exact absurd he (by decide)
          · exact not_partShape_of _ (by decide) (by decide) (by decide) he
      · rcases goalParts_mem _ _ _ hm with he | he
        · exact absurd he (by decide)
        · exact not_partShape_of _ (by decide) (by decide) (by decide) he
    · intro hq
      unfold buildParts
      rw [trackerParts_cons _ hq]
      simp
  · have hsorted := List.sorted_mergeSort revLe_trans revLe_total db.weekReviews
    have htake : List.Pairwise (fun a b => revLe a b = true) (reviewsQuery db) := by
      unfold reviewsQuery
      exact List.Pairwise.sublist (List.take_sublist 4 _) hsorted
    have hrq : reviewsQuery { db with weekReviews := reviewsQuery db } =
        reviewsQuery db := by
      show ((reviewsQuery db).mergeSort revLe).take 4 = reviewsQuery db
      rw [List.mergeSort_of_sorted htake]
      exact List.take_of_length_le hlen4
    have hbp : buildParts { db with weekReviews := reviewsQuery db } since =
        buildParts db since := by
      unfold buildParts
      rw [hrq]
      rfl
    unfold buildContext
    rw [hbp]

/-- Witness for C7: on the empty store the context builder returns the
fixed placeholder. -/
theorem buildContext_spec_witness :
    buildContext emptyStore "2024-01-01" = "Nog geen data beschikbaar." :=
  (buildContext_spec emptyStore "2024-01-01").1.mpr
    ⟨by simp [answersQuery, emptyStore, List.mergeSort_nil], rfl,
     by simp [activeGoalsQuery, emptyStore, List.mergeSort_nil],
     by simp [trackersQuery, emptyStore, List.mergeSort_nil]⟩

end Grip
